import Mathlib

/-!
Verification development for the `just-expression` policy-enforcing tree
walker (`transform` in the TypeScript source).  The ESTree expression grammar
is embedded as the inductive type `Node`; the policy check (`ENTER`), the
binding scanner (`extractDeclaration`), the scope-tracking walker (`walk`)
and the entry validation (`transform`) are translated from the source.

The traversal driver comes from the external `immer-walker` package, which
is not part of this repository.  Its dispatch discipline is modelled from
the specification: on entering any node the `ENTER` policy hook runs first;
if a type-specific handler exists it fully controls the traversal of that
node (the source handlers call `walk` on exactly the children they want
visited); otherwise the walker recurses into every child position in the
node's natural child order and rebuilds the node only when some child
changed, returning the original node otherwise.  The JavaScript reference
identity check (`===`) on a returned child is modelled by an explicit
`changed` flag threaded through the traversal, as suggested by the spec's
design notes: a handler returns the original reference exactly when nothing
below it was rebuilt, i.e. exactly when the flag is `false`.

Mutation of the walker state (the scope list) is modelled by explicit state
passing: `walk` consumes and returns the scope list, mirroring `push` and
`splice` on the JavaScript array.  Recursion is bounded by an explicit fuel
parameter (needed because the nested `List` fields make the recursion
non-structural); fuel exhaustion is a distinct error that never occurs when
the fuel exceeds the size of the tree, and `transform` supplies such fuel.
-/

/-- Error values thrown by the source: `SyntaxError`, `ReferenceError`,
plain `Error` (from the binding scanner's unknown-pattern default case), the
`devlop` `ok()` assertion failures, and the fuel guard of the embedding. -/
inductive Err where
  | syntaxError (msg : String)
  | referenceError (msg : String)
  | plainError (msg : String)
  | assertionError (msg : String)
  | outOfFuel
deriving Repr, DecidableEq

/-- The five policy switches of `transform`, with the source's defaults
(`this: false, call: true, arrow: true, update: false, inspect: false`). -/
structure Enables where
  enableThis : Bool := false
  enableCall : Bool := true
  enableArrow : Bool := true
  enableUpdate : Bool := false
  enableInspect : Bool := false
deriving Repr, DecidableEq

/-- ESTree nodes, restricted to the kinds the source can encounter: the
expression kinds of the `ENTER` whitelist, the pattern-only kinds, and the
kinds that only ever trigger a hard failure (`BlockStatement`, `Super`,
`PrivateIdentifier`, plus a catch-all `OtherNode` for any unknown tag).
Fields that the source never reads or rewrites but that `{...node}` spreads
preserve (e.g. `computed`, `optional`, `async`, a `Property`'s `shorthand`
and `kind`) are kept where they influence traversal or output shape. -/
inductive Node where
  | Identifier (name : String)
  | Literal (raw : String)
  | ArrayExpression (elements : List (Option Node))
  | ObjectExpression (properties : List Node)
  | MemberExpression (object property : Node) (computed optional : Bool)
  | ChainExpression (expression : Node)
  | LogicalExpression (operator : String) (left right : Node)
  | SequenceExpression (expressions : List Node)
  | ConditionalExpression (test consequent alternate : Node)
  | TemplateLiteral (quasis expressions : List Node)
  | ArrowFunctionExpression (params : List Node) (body : Node) (async : Bool)
  | UnaryExpression (operator : String) (argument : Node)
  | BinaryExpression (operator : String) (left right : Node)
  | UpdateExpression (operator : String) (argument : Node) (pre : Bool)
  | AssignmentExpression (operator : String) (left right : Node)
  | NewExpression (callee : Node) (arguments : List Node)
  | CallExpression (callee : Node) (arguments : List Node) (optional : Bool)
  | TaggedTemplateExpression (tag quasi : Node)
  | ThisExpression
  | FunctionExpression
  | ClassExpression
  | MetaProperty
  | YieldExpression
  | AwaitExpression (argument : Node)
  | ImportExpression (source : Node)
  | Property (key value : Node) (computed shorthand : Bool) (kind : String)
  | ObjectPattern (properties : List Node)
  | ArrayPattern (elements : List (Option Node))
  | RestElement (argument : Node)
  | AssignmentPattern (left right : Node)
  | SpreadElement (argument : Node)
  | TemplateElement (raw : String) (tail : Bool)
  | BlockStatement
  | Super
  | PrivateIdentifier (name : String)
  | OtherNode (tag : String)
deriving Repr

/-- The `type` tag string of a node, as it appears in error messages. -/
def typeName : Node → String
  | .Identifier _ => "Identifier"
  | .Literal _ => "Literal"
  | .ArrayExpression _ => "ArrayExpression"
  | .ObjectExpression _ => "ObjectExpression"
  | .MemberExpression _ _ _ _ => "MemberExpression"
  | .ChainExpression _ => "ChainExpression"
  | .LogicalExpression _ _ _ => "LogicalExpression"
  | .SequenceExpression _ => "SequenceExpression"
  | .ConditionalExpression _ _ _ => "ConditionalExpression"
  | .TemplateLiteral _ _ => "TemplateLiteral"
  | .ArrowFunctionExpression _ _ _ => "ArrowFunctionExpression"
  | .UnaryExpression _ _ => "UnaryExpression"
  | .BinaryExpression _ _ _ => "BinaryExpression"
  | .UpdateExpression _ _ _ => "UpdateExpression"
  | .AssignmentExpression _ _ _ => "AssignmentExpression"
  | .NewExpression _ _ => "NewExpression"
  | .CallExpression _ _ _ => "CallExpression"
  | .TaggedTemplateExpression _ _ => "TaggedTemplateExpression"
  | .ThisExpression => "ThisExpression"
  | .FunctionExpression => "FunctionExpression"
  | .ClassExpression => "ClassExpression"
  | .MetaProperty => "MetaProperty"
  | .YieldExpression => "YieldExpression"
  | .AwaitExpression _ => "AwaitExpression"
  | .ImportExpression _ => "ImportExpression"
  | .Property _ _ _ _ _ => "Property"
  | .ObjectPattern _ => "ObjectPattern"
  | .ArrayPattern _ => "ArrayPattern"
  | .RestElement _ => "RestElement"
  | .AssignmentPattern _ _ => "AssignmentPattern"
  | .SpreadElement _ => "SpreadElement"
  | .TemplateElement _ _ => "TemplateElement"
  | .BlockStatement => "BlockStatement"
  | .Super => "Super"
  | .PrivateIdentifier _ => "PrivateIdentifier"
  | .OtherNode t => t

/-- The `test(cond, err)` helper of the source: throw a `SyntaxError` when
the condition fails. -/
def test (cond : Bool) (err : String) : Except Err Unit :=
  if cond then .ok () else .error (.syntaxError err)

/-- The `ENTER` policy hook of the walker, translated case for case from the
big `switch` in `transform`. -/
def enter (cfg : Enables) (n : Node) : Except Err Unit :=
  match n with
  | .Identifier _ => .ok ()
  | .Literal _ => .ok ()
  | .ArrayExpression _ => .ok ()
  | .ObjectExpression _ => .ok ()
  | .MemberExpression _ _ _ _ => .ok ()
  | .ChainExpression _ => .ok ()
  | .LogicalExpression _ _ _ => .ok ()
  | .SequenceExpression _ => .ok ()
  | .ConditionalExpression _ _ _ => .ok ()
  | .TemplateLiteral _ _ => .ok ()
  | .ArrowFunctionExpression _ _ _ =>
    test cfg.enableArrow ("expression " ++ typeName n ++ " is disabled")
  | .UnaryExpression op _ =>
    test ((cfg.enableUpdate || op != "delete")
        && (cfg.enableInspect
            || (op != "typeof" && op != "in" && op != "instanceof")))
      ("operator " ++ op ++ " is disabled")
  | .BinaryExpression op _ _ =>
    test ((cfg.enableUpdate || op != "delete")
        && (cfg.enableInspect
            || (op != "typeof" && op != "in" && op != "instanceof")))
      ("operator " ++ op ++ " is disabled")
  | .UpdateExpression op _ _ => test cfg.enableUpdate ("operator " ++ op ++ " is disabled")
  | .AssignmentExpression op _ _ => test cfg.enableUpdate ("operator " ++ op ++ " is disabled")
  | .NewExpression _ _ => test cfg.enableCall ("expression " ++ typeName n ++ " is disabled")
  | .CallExpression _ _ _ => test cfg.enableCall ("expression " ++ typeName n ++ " is disabled")
  | .TaggedTemplateExpression _ _ =>
    test cfg.enableCall ("expression " ++ typeName n ++ " is disabled")
  | .ThisExpression => test cfg.enableThis ("expression " ++ typeName n ++ " is disabled")
  | .FunctionExpression => test false ("expression " ++ typeName n ++ " is not supported")
  | .ClassExpression => test false ("expression " ++ typeName n ++ " is not supported")
  | .MetaProperty => test false ("expression " ++ typeName n ++ " is not supported")
  | .YieldExpression => test false ("expression " ++ typeName n ++ " is not supported")
  | .AwaitExpression _ => test false ("expression " ++ typeName n ++ " is not supported")
  | .ImportExpression _ => test false ("expression " ++ typeName n ++ " is not supported")
  | .Property _ _ _ _ _ => .ok ()
  | .ObjectPattern _ => .ok ()
  | .ArrayPattern _ => .ok ()
  | .RestElement _ => .ok ()
  | .AssignmentPattern _ _ => .ok ()
  | .SpreadElement _ => .ok ()
  | .TemplateElement _ _ => .ok ()
  | .BlockStatement => .error (.syntaxError ("unknown node type " ++ typeName n))
  | .Super => .error (.syntaxError ("unknown node type " ++ typeName n))
  | .PrivateIdentifier _ => .error (.syntaxError ("unknown node type " ++ typeName n))
  | .OtherNode t => .error (.syntaxError ("unknown node type " ++ t))

/-- Loop body of `extractDeclaration`'s `ObjectPattern` case: for each
property entry recurse into a rest capture's target or a property entry's
value, anything else is an `unknown ObjectPattern syntax` error. -/
def extractProps (ex : Node → List String → Except Err (List String)) :
    List Node → List String → Except Err (List String)
  | [], scope => .ok scope
  | p :: rest, scope =>
    match p with
    | .RestElement a =>
      match ex a scope with
      | .error e => .error e
      | .ok s1 => extractProps ex rest s1
    | .Property _ v _ _ _ =>
      match ex v scope with
      | .error e => .error e
      | .ok s1 => extractProps ex rest s1
    | _ => .error (.syntaxError "unknown ObjectPattern syntax")

/-- Loop body of `extractDeclaration`'s `ArrayPattern` case: recurse into
each present element, skipping holes. -/
def extractElems (ex : Node → List String → Except Err (List String)) :
    List (Option Node) → List String → Except Err (List String)
  | [], scope => .ok scope
  | none :: rest, scope => extractElems ex rest scope
  | some e :: rest, scope =>
    match ex e scope with
    | .error er => .error er
    | .ok s1 => extractElems ex rest s1

/-- The binding scanner `extractDeclaration(pattern, scope)`: appends every
name the pattern binds to the scope.  The fuel argument only bounds the
recursion depth of the embedding. -/
def extractDeclaration : Nat → Node → List String → Except Err (List String)
  | 0, _, _ => .error .outOfFuel
  | f + 1, pat, scope =>
    match pat with
    | .Identifier name => .ok (scope ++ [name])
    | .ObjectPattern props => extractProps (extractDeclaration f) props scope
    | .ArrayPattern els => extractElems (extractDeclaration f) els scope
    | .RestElement a => extractDeclaration f a scope
    | .AssignmentPattern l _ => extractDeclaration f l scope
    | _ => .error (.plainError "unknown Pattern syntax")

/-- The `for (const p of node.params) extractDeclaration(p, state)` loop of
the `ArrowFunctionExpression` handler. -/
def extractParams (f : Nat) : List Node → List String → Except Err (List String)
  | [], scope => .ok scope
  | p :: rest, scope =>
    match extractDeclaration f p scope with
    | .error e => .error e
    | .ok s1 => extractParams f rest s1

/-- Tag test `node.type === 'BlockStatement'`. -/
def isBlock : Node → Bool
  | .BlockStatement => true
  | _ => false

/-- Tag test `node.type === 'Super'`. -/
def isSuper : Node → Bool
  | .Super => true
  | _ => false

/-- Tag test `node.type === 'PrivateIdentifier'`. -/
def isPrivate : Node → Bool
  | .PrivateIdentifier _ => true
  | _ => false

/-- Result of one walker visit: the (possibly rebuilt) node, a flag telling
whether anything below was rebuilt (the model of JavaScript reference
inequality with the input node), and the scope list after the visit. -/
abbrev Res := Except Err (Node × Bool × List String)

/-- Generic traversal of one child position: visit the child, rebuild the
parent only when the child changed.  Modelled from the spec: unhandled node
kinds "recurse into every child position generically and rebuild only if any
child's reference changed, otherwise return the original node unchanged". -/
def walk1 (w : Node → List String → Res) (rb : Node → Node) (orig c : Node)
    (s : List String) : Res :=
  match w c s with
  | .error e => .error e
  | .ok (r, ch, s1) => if ch then .ok (rb r, true, s1) else .ok (orig, false, s1)

/-- Generic traversal of two child positions, left to right. -/
def walk2 (w : Node → List String → Res) (rb : Node → Node → Node)
    (orig c1 c2 : Node) (s : List String) : Res :=
  match w c1 s with
  | .error e => .error e
  | .ok (r1, ch1, s1) =>
    match w c2 s1 with
    | .error e => .error e
    | .ok (r2, ch2, s2) =>
      if ch1 || ch2 then .ok (rb r1 r2, true, s2) else .ok (orig, false, s2)

/-- Generic traversal of three child positions, left to right. -/
def walk3 (w : Node → List String → Res) (rb : Node → Node → Node → Node)
    (orig c1 c2 c3 : Node) (s : List String) : Res :=
  match w c1 s with
  | .error e => .error e
  | .ok (r1, ch1, s1) =>
    match w c2 s1 with
    | .error e => .error e
    | .ok (r2, ch2, s2) =>
      match w c3 s2 with
      | .error e => .error e
      | .ok (r3, ch3, s3) =>
        if ch1 || ch2 || ch3 then .ok (rb r1 r2 r3, true, s3)
        else .ok (orig, false, s3)

/-- Generic traversal of a list of children, left to right. -/
def walkList (w : Node → List String → Res) :
    List Node → List String → Except Err (List Node × Bool × List String)
  | [], s => .ok ([], false, s)
  | c :: cs, s =>
    match w c s with
    | .error e => .error e
    | .ok (r, ch, s1) =>
      match walkList w cs s1 with
      | .error e => .error e
      | .ok (rs, chs, s2) => .ok (r :: rs, ch || chs, s2)

/-- Generic traversal of an array with possible holes: holes are kept and
skipped, present elements are visited left to right. -/
def walkOpts (w : Node → List String → Res) :
    List (Option Node) → List String →
      Except Err (List (Option Node) × Bool × List String)
  | [], s => .ok ([], false, s)
  | none :: cs, s =>
    match walkOpts w cs s with
    | .error e => .error e
    | .ok (rs, chs, s1) => .ok (none :: rs, chs, s1)
  | some c :: cs, s =>
    match w c s with
    | .error e => .error e
    | .ok (r, ch, s1) =>
      match walkOpts w cs s1 with
      | .error e => .error e
      | .ok (rs, chs, s2) => .ok (some r :: rs, ch || chs, s2)

/-- Generic traversal of a node with one list-of-children field. -/
def walkL (w : Node → List String → Res) (rb : List Node → Node) (orig : Node)
    (l : List Node) (s : List String) : Res :=
  match walkList w l s with
  | .error e => .error e
  | .ok (rs, ch, s1) => if ch then .ok (rb rs, true, s1) else .ok (orig, false, s1)

/-- Generic traversal of a node with one list-with-holes field. -/
def walkO (w : Node → List String → Res) (rb : List (Option Node) → Node)
    (orig : Node) (l : List (Option Node)) (s : List String) : Res :=
  match walkOpts w l s with
  | .error e => .error e
  | .ok (rs, ch, s1) => if ch then .ok (rb rs, true, s1) else .ok (orig, false, s1)

/-- Generic traversal of a node with two list fields (template literal:
quasis, then expressions). -/
def walkLL (w : Node → List String → Res) (rb : List Node → List Node → Node)
    (orig : Node) (l1 l2 : List Node) (s : List String) : Res :=
  match walkList w l1 s with
  | .error e => .error e
  | .ok (r1, ch1, s1) =>
    match walkList w l2 s1 with
    | .error e => .error e
    | .ok (r2, ch2, s2) =>
      if ch1 || ch2 then .ok (rb r1 r2, true, s2) else .ok (orig, false, s2)

/-- Generic traversal of a node with one child and one list field (call and
construction: callee, then arguments). -/
def walk1L (w : Node → List String → Res) (rb : Node → List Node → Node)
    (orig c : Node) (l : List Node) (s : List String) : Res :=
  match w c s with
  | .error e => .error e
  | .ok (r, ch, s1) =>
    match walkList w l s1 with
    | .error e => .error e
    | .ok (rs, chs, s2) =>
      if ch || chs then .ok (rb r rs, true, s2) else .ok (orig, false, s2)

set_option maxHeartbeats 1600000 in
/-- One dispatch step of the scope-tracking walker, parameterized by the
walker `w` used on children (the recursive `walk` one fuel level down) and
by the fuel handed to the binding scanner.  The four handled kinds
(`ArrowFunctionExpression`, `MemberExpression`, `Property`, `Identifier`)
follow the source handlers; every other admitted kind is traversed
generically.  The kinds `ENTER` always rejects keep a dead generic arm that
is never reached. -/
def walkStep (w : Node → List String → Res) (f : Nat) (g : Option String)
    (n : Node) (s : List String) : Res :=
  match n with
  | .Identifier name =>
    if name ∈ s then .ok (n, false, s)
    else
      match g with
      | none => .error (.referenceError ("variable '" ++ name ++ "' is not defined"))
      | some gl =>
        .ok (.MemberExpression
              (if gl = "this" then .ThisExpression else .Identifier gl)
              (.Identifier name) false false, true, s)
  | .ArrowFunctionExpression ps body async =>
    if isBlock body then
      .error (.syntaxError "arrow function with block statement is not allowed")
    else
      match extractParams f ps s with
      | .error e => .error e
      | .ok s1 =>
        match w body s1 with
        | .error e => .error e
        | .ok (b, ch, s2) =>
          if ch then .ok (.ArrowFunctionExpression ps b async, true, s2.take s.length)
          else .ok (n, false, s2.take s.length)
  | .MemberExpression o p comp opt =>
    if isSuper o then .error (.assertionError "member object must not be Super")
    else if isPrivate p then
      .error (.assertionError "member property must not be PrivateIdentifier")
    else
      match w o s with
      | .error e => .error e
      | .ok (ro, cho, s1) =>
        match (if comp then w p s1 else .ok (p, false, s1)) with
        | .error e => .error e
        | .ok (rp, chp, s2) =>
          if cho || chp then .ok (.MemberExpression ro rp comp opt, true, s2)
          else .ok (n, false, s2)
  | .Property k v comp sh kind =>
    if isPrivate k then
      .error (.assertionError "property key must not be PrivateIdentifier")
    else
      match (if comp then w k s else .ok (k, false, s)) with
      | .error e => .error e
      | .ok (rk, chk, s1) =>
        match w v s1 with
        | .error e => .error e
        | .ok (rv, chv, s2) =>
          if chk || chv then .ok (.Property rk rv comp sh kind, true, s2)
          else .ok (n, false, s2)
  | .Literal _ => .ok (n, false, s)
  | .TemplateElement _ _ => .ok (n, false, s)
  | .ThisExpression => .ok (n, false, s)
  | .ArrayExpression es => walkO w .ArrayExpression n es s
  | .ObjectExpression ps' => walkL w .ObjectExpression n ps' s
  | .ChainExpression e1 => walk1 w .ChainExpression n e1 s
  | .LogicalExpression op l r => walk2 w (.LogicalExpression op) n l r s
  | .SequenceExpression es => walkL w .SequenceExpression n es s
  | .ConditionalExpression a b c => walk3 w .ConditionalExpression n a b c s
  | .TemplateLiteral qs es => walkLL w .TemplateLiteral n qs es s
  | .UnaryExpression op a => walk1 w (.UnaryExpression op) n a s
  | .BinaryExpression op l r => walk2 w (.BinaryExpression op) n l r s
  | .UpdateExpression op a pre => walk1 w (fun r => .UpdateExpression op r pre) n a s
  | .AssignmentExpression op l r => walk2 w (.AssignmentExpression op) n l r s
  | .NewExpression c as => walk1L w .NewExpression n c as s
  | .CallExpression c as opt => walk1L w (fun r rs => .CallExpression r rs opt) n c as s
  | .TaggedTemplateExpression t q => walk2 w .TaggedTemplateExpression n t q s
  | .SpreadElement a => walk1 w .SpreadElement n a s
  | .RestElement a => walk1 w .RestElement n a s
  | .ObjectPattern ps' => walkL w .ObjectPattern n ps' s
  | .ArrayPattern es => walkO w .ArrayPattern n es s
  | .AssignmentPattern l r => walk2 w .AssignmentPattern n l r s
  | .AwaitExpression a => walk1 w .AwaitExpression n a s
  | .ImportExpression a => walk1 w .ImportExpression n a s
  | .FunctionExpression => .ok (n, false, s)
  | .ClassExpression => .ok (n, false, s)
  | .MetaProperty => .ok (n, false, s)
  | .YieldExpression => .ok (n, false, s)
  | .BlockStatement => .ok (n, false, s)
  | .Super => .ok (n, false, s)
  | .PrivateIdentifier _ => .ok (n, false, s)
  | .OtherNode _ => .ok (n, false, s)

/-- The scope-tracking walker: on every visit the `ENTER` policy hook runs
first, then `walkStep` dispatches on the node kind, walking children with
one fuel level less. -/
def walk (cfg : Enables) (g : Option String) : Nat → Node → List String → Res
  | 0, _, _ => .error .outOfFuel
  | f + 1, n, s =>
    match enter cfg n with
    | .error e => .error e
    | .ok _ => walkStep (walk cfg g f) f g n s

/-- Reserved words that are not valid parameter names, the data of the
external `reserved-identifiers` package used by `isIdent` (ECMAScript
reserved words, strict-mode and future reserved words, literals, and the
always-restricted `arguments` and `eval`). -/
def reservedIdentifiers : List String :=
  ["await", "break", "case", "catch", "class", "const", "continue",
   "debugger", "default", "delete", "do", "else", "enum", "export",
   "extends", "false", "finally", "for", "function", "if", "implements",
   "import", "in", "instanceof", "interface", "let", "new", "null",
   "package", "private", "protected", "public", "return", "static",
   "super", "switch", "this", "throw", "true", "try", "typeof", "var",
   "void", "while", "with", "yield", "arguments", "eval"]

/-- First character of an identifier: `$`, `_`, or Unicode `ID_Start`, the
latter modelled by its letter restriction (no claim depends on the exact
Unicode tables). -/
def isIdentStart (c : Char) : Bool := c = '$' || c = '_' || c.isAlpha

/-- Continuation character of an identifier: `$`, ZWNJ, ZWJ, or Unicode
`ID_Continue`, the latter modelled by letters, digits and underscore. -/
def isIdentCont (c : Char) : Bool :=
  c = '$' || c = Char.ofNat 0x200C || c = Char.ofNat 0x200D
    || c.isAlpha || c.isDigit || c = '_'

/-- The `isIdent` check of `util.ts`: the identifier regular expression and
the reserved-word exclusion. -/
def isIdent (name : String) : Bool :=
  (match name.toList with
   | [] => false
   | c :: rest => isIdentStart c && rest.all isIdentCont)
  && !(reservedIdentifiers.contains name)

/-- The parameter-list validation loop at the top of `transform`: every
parameter must be a valid identifier and must not occur again later in the
list. -/
def checkParams : List String → Except Err Unit
  | [] => .ok ()
  | p :: rest =>
    if !(isIdent p) then
      .error (.syntaxError ("parameter name '" ++ p ++ "' is not a valid identifier"))
    else if rest.contains p then
      .error (.syntaxError ("duplicate parameter name '" ++ p ++ "'"))
    else checkParams rest

/-- The global-binding validation of `transform`: when a global name is
given and is not the self-reference sentinel `this`, it must be listed in
the parameter list. -/
def checkGlobal (params : List String) : Option String → Except Err Unit
  | none => .ok ()
  | some gl =>
    if gl != "this" && !(params.contains gl) then
      .error (.syntaxError ("global object name '" ++ gl ++ "' is not in parameter list"))
    else .ok ()

mutual

/-- Number of nodes of a tree (a computable measure used as walker fuel: it
strictly exceeds the tree depth). -/
def nodeSize : Node → Nat
  | .Identifier _ => 1
  | .Literal _ => 1
  | .ArrayExpression es => 1 + optsSize es
  | .ObjectExpression ps => 1 + nodesSize ps
  | .MemberExpression o p _ _ => 1 + nodeSize o + nodeSize p
  | .ChainExpression e => 1 + nodeSize e
  | .LogicalExpression _ l r => 1 + nodeSize l + nodeSize r
  | .SequenceExpression es => 1 + nodesSize es
  | .ConditionalExpression a b c => 1 + nodeSize a + nodeSize b + nodeSize c
  | .TemplateLiteral qs es => 1 + nodesSize qs + nodesSize es
  | .ArrowFunctionExpression ps body _ => 1 + nodesSize ps + nodeSize body
  | .UnaryExpression _ a => 1 + nodeSize a
  | .BinaryExpression _ l r => 1 + nodeSize l + nodeSize r
  | .UpdateExpression _ a _ => 1 + nodeSize a
  | .AssignmentExpression _ l r => 1 + nodeSize l + nodeSize r
  | .NewExpression c as => 1 + nodeSize c + nodesSize as
  | .CallExpression c as _ => 1 + nodeSize c + nodesSize as
  | .TaggedTemplateExpression t q => 1 + nodeSize t + nodeSize q
  | .ThisExpression => 1
  | .FunctionExpression => 1
  | .ClassExpression => 1
  | .MetaProperty => 1
  | .YieldExpression => 1
  | .AwaitExpression a => 1 + nodeSize a
  | .ImportExpression a => 1 + nodeSize a
  | .Property k v _ _ _ => 1 + nodeSize k + nodeSize v
  | .ObjectPattern ps => 1 + nodesSize ps
  | .ArrayPattern es => 1 + optsSize es
  | .RestElement a => 1 + nodeSize a
  | .AssignmentPattern l r => 1 + nodeSize l + nodeSize r
  | .SpreadElement a => 1 + nodeSize a
  | .TemplateElement _ _ => 1
  | .BlockStatement => 1
  | .Super => 1
  | .PrivateIdentifier _ => 1
  | .OtherNode _ => 1

/-- Total size of a list of nodes. -/
def nodesSize : List Node → Nat
  | [] => 0
  | c :: cs => nodeSize c + nodesSize cs

/-- Total size of an array with holes; holes count zero. -/
def optsSize : List (Option Node) → Nat
  | [] => 0
  | none :: cs => optsSize cs
  | some c :: cs => nodeSize c + optsSize cs

end

/-- The exported `transform(ast, params, global, enables)`: validate the
configuration, then run the walker once with the parameter list as the
initial scope.  The fuel `nodeSize ast + 1` exceeds the tree depth, so the
fuel guard never fires. -/
def transform (ast : Node) (params : List String := []) (g : Option String := none)
    (cfg : Enables := {}) : Except Err Node :=
  match checkParams params with
  | .error e => .error e
  | .ok _ =>
    match checkGlobal params g with
    | .error e => .error e
    | .ok _ =>
      match walk cfg g (nodeSize ast + 1) ast params with
      | .error e => .error e
      | .ok (r, _, _) => .ok r

/-- Decides that a subtree has no free identifier reference, mirroring
exactly the walker's notion of a reference: identifier leaves the walker
visits (so not non-computed member properties, not non-computed property
keys, and not the parameter patterns of an arrow function, which the arrow
handler scans but never walks), with arrow bodies checked under the scope
extended by the scanned parameter bindings. -/
def noFree : Nat → Node → List String → Bool
  | 0, _, _ => false
  | f + 1, n, s =>
    match n with
    | .Identifier name => decide (name ∈ s)
    | .Literal _ => true
    | .ArrayExpression es =>
      es.all (fun o => match o with | none => true | some c => noFree f c s)
    | .ObjectExpression ps => ps.all (fun c => noFree f c s)
    | .MemberExpression o p comp _ => noFree f o s && (!comp || noFree f p s)
    | .ChainExpression e => noFree f e s
    | .LogicalExpression _ l r => noFree f l s && noFree f r s
    | .SequenceExpression es => es.all (fun c => noFree f c s)
    | .ConditionalExpression a b c => noFree f a s && noFree f b s && noFree f c s
    | .TemplateLiteral qs es =>
      qs.all (fun c => noFree f c s) && es.all (fun c => noFree f c s)
    | .ArrowFunctionExpression ps body _ =>
      match extractParams f ps s with
      | .ok s1 => noFree f body s1
      | .error _ => false
    | .UnaryExpression _ a => noFree f a s
    | .BinaryExpression _ l r => noFree f l s && noFree f r s
    | .UpdateExpression _ a _ => noFree f a s
    | .AssignmentExpression _ l r => noFree f l s && noFree f r s
    | .NewExpression c as => noFree f c s && as.all (fun x => noFree f x s)
    | .CallExpression c as _ => noFree f c s && as.all (fun x => noFree f x s)
    | .TaggedTemplateExpression t q => noFree f t s && noFree f q s
    | .ThisExpression => true
    | .FunctionExpression => true
    | .ClassExpression => true
    | .MetaProperty => true
    | .YieldExpression => true
    | .AwaitExpression a => noFree f a s
    | .ImportExpression a => noFree f a s
    | .Property k v comp _ _ => (!comp || noFree f k s) && noFree f v s
    | .ObjectPattern ps => ps.all (fun c => noFree f c s)
    | .ArrayPattern es =>
      es.all (fun o => match o with | none => true | some c => noFree f c s)
    | .RestElement a => noFree f a s
    | .AssignmentPattern l r => noFree f l s && noFree f r s
    | .SpreadElement a => noFree f a s
    | .TemplateElement _ _ => true
    | .BlockStatement => true
    | .Super => true
    | .PrivateIdentifier _ => true
    | .OtherNode _ => true

/-- Names bound by the property entries of an object pattern, following the
spec wording of the binding scanner contract (rest capture: its target;
property entry: its value, never its key). -/
def specBoundProps (bn : Node → Except Err (List String)) :
    List Node → Except Err (List String)
  | [] => .ok []
  | p :: rest =>
    match p with
    | .RestElement a =>
      match bn a with
      | .error e => .error e
      | .ok ns =>
        match specBoundProps bn rest with
        | .error e => .error e
        | .ok ms => .ok (ns ++ ms)
    | .Property _ v _ _ _ =>
      match bn v with
      | .error e => .error e
      | .ok ns =>
        match specBoundProps bn rest with
        | .error e => .error e
        | .ok ms => .ok (ns ++ ms)
    | _ => .error (.syntaxError "unknown ObjectPattern syntax")

/-- Names bound by the elements of an array pattern, skipping holes. -/
def specBoundElems (bn : Node → Except Err (List String)) :
    List (Option Node) → Except Err (List String)
  | [] => .ok []
  | none :: rest => specBoundElems bn rest
  | some e :: rest =>
    match bn e with
    | .error er => .error er
    | .ok ns =>
      match specBoundElems bn rest with
      | .error er => .error er
      | .ok ms => .ok (ns ++ ms)

/-- The spec-side reading of the binding scanner contract: the flat list of
names a pattern binds, in left-to-right, outer-to-inner order (a plain
identifier binds its name; an object pattern binds through each entry's
value or rest target, never a key; an array pattern binds through each
present element; a rest capture through its target; a default-value pattern
through its left-hand target only; anything else is a pattern error).  Kept
separate from `extractDeclaration` so that "`scan` appends exactly the bound
names" can be stated as a theorem comparing the two. -/
def specBoundNames : Nat → Node → Except Err (List String)
  | 0, _ => .error .outOfFuel
  | f + 1, pat =>
    match pat with
    | .Identifier name => .ok [name]
    | .ObjectPattern props => specBoundProps (specBoundNames f) props
    | .ArrayPattern els => specBoundElems (specBoundNames f) els
    | .RestElement a => specBoundNames f a
    | .AssignmentPattern l _ => specBoundNames f l
    | _ => .error (.plainError "unknown Pattern syntax")

/-- The conditions under which the walker's identifier rewrites survive a
second traversal from the same scope: no global binding, or the self
reference with `this` enabled, or a global name that is in scope.  All
three hold for any scope `transform` ever uses, except the self-reference
sentinel with the `this` switch off. -/
def GlobalOk (g : Option String) (cfg : Enables) (s : List String) : Prop :=
  match g with
  | none => True
  | some gl => if gl = "this" then cfg.enableThis = true else gl ∈ s

/-- An arrow function whose single parameter carries the default value `c`
(`(a = c) => a`): the free identifier `c` sits inside a parameter pattern. -/
def arrowDefaultFree : Node :=
  .ArrowFunctionExpression [.AssignmentPattern (.Identifier "a") (.Identifier "c")]
    (.Identifier "a") false

/-- The nested destructuring pattern of the spec scenario:
`{a: {a: [,a], ...c}, c: b = 2}`. -/
def c6pattern : Node :=
  .ObjectPattern
    [ .Property (.Identifier "a")
        (.ObjectPattern
          [ .Property (.Identifier "a")
              (.ArrayPattern [none, some (.Identifier "a")]) false false "init"
          , .RestElement (.Identifier "c") ])
        false false "init"
    , .Property (.Identifier "c")
        (.AssignmentPattern (.Identifier "b") (.Literal "2")) false false "init" ]

/-- The rewrite of the free identifier `a` under the self-reference global
binding: `this.a`. -/
def thisRewritten : Node := .MemberExpression .ThisExpression (.Identifier "a") false false

/-- Object-pattern step of `extractDeclaration_eq`. -/
lemma extractProps_eq (f : Nat)
    (IH : ∀ p s, extractDeclaration f p s
      = (specBoundNames f p).map (fun ns => s ++ ns)) :
    ∀ (l : List Node) (s : List String),
      extractProps (extractDeclaration f) l s
        = (specBoundProps (specBoundNames f) l).map (fun ns => s ++ ns) := by
  intro l
  induction l with
  | nil => intro s; simp [extractProps, specBoundProps, Except.map]
  | cons p rest ihl =>
    intro s
    cases p
    case RestElement a =>
      simp only [extractProps, specBoundProps, IH a s]
      cases hsb : specBoundNames f a with
      | error e => simp [Except.map]
      | ok ns =>
        simp only [Except.map, ihl (s ++ ns)]
        cases hr : specBoundProps (specBoundNames f) rest with
        | error e => simp [Except.map]
        | ok ms => simp [Except.map, List.append_assoc]
    case Property k v comp sh kind =>
      simp only [extractProps, specBoundProps, IH v s]
      cases hsb : specBoundNames f v with
      | error e => simp [Except.map]
      | ok ns =>
        simp only [Except.map, ihl (s ++ ns)]
        cases hr : specBoundProps (specBoundNames f) rest with
        | error e => simp [Except.map]
        | ok ms => simp [Except.map, List.append_assoc]
    all_goals simp [extractProps, specBoundProps, Except.map]

/-- Array-pattern step of `extractDeclaration_eq`. -/
lemma extractElems_eq (f : Nat)
    (IH : ∀ p s, extractDeclaration f p s
      = (specBoundNames f p).map (fun ns => s ++ ns)) :
    ∀ (l : List (Option Node)) (s : List String),
      extractElems (extractDeclaration f) l s
        = (specBoundElems (specBoundNames f) l).map (fun ns => s ++ ns) := by
  intro l
  induction l with
  | nil => intro s; simp [extractElems, specBoundElems, Except.map]
  | cons o rest ihl =>
    intro s
    cases o with
    | none => simpa [extractElems, specBoundElems] using ihl s
    | some e =>
      simp only [extractElems, specBoundElems, IH e s]
      cases hsb : specBoundNames f e with
      | error er => simp [Except.map]
      | ok ns =>
        simp only [Except.map, ihl (s ++ ns)]
        cases hr : specBoundElems (specBoundNames f) rest with
        | error er => simp [Except.map]
        | ok ms => simp [Except.map, List.append_assoc]

/-- The binding scanner appends exactly the names the pattern binds: running
`extractDeclaration` on any scope is the spec-side bound-name computation
followed by appending to that scope. -/
lemma extractDeclaration_eq :
    ∀ (f : Nat) (p : Node) (s : List String),
      extractDeclaration f p s = (specBoundNames f p).map (fun ns => s ++ ns) := by
  intro f
  induction f with
  | zero => intro p s; simp [extractDeclaration, specBoundNames, Except.map]
  | succ f ih =>
    intro p s
    cases p
    case Identifier name => simp [extractDeclaration, specBoundNames, Except.map]
    case ObjectPattern props =>
      simpa [extractDeclaration, specBoundNames] using extractProps_eq f ih props s
    case ArrayPattern els =>
      simpa [extractDeclaration, specBoundNames] using extractElems_eq f ih els s
    case RestElement a =>
      simpa [extractDeclaration, specBoundNames] using ih a s
    case AssignmentPattern l r =>
      simpa [extractDeclaration, specBoundNames] using ih l s
    all_goals simp [extractDeclaration, specBoundNames, Except.map]

/-- Scanning a parameter list only ever appends to the scope. -/
lemma extractParams_append :
    ∀ (f : Nat) (ps : List Node) (s s1 : List String),
      extractParams f ps s = .ok s1 → ∃ ns, s1 = s ++ ns := by
  intro f ps
  induction ps with
  | nil => intro s s1 h; exact ⟨[], by simpa [extractParams] using h.symm⟩
  | cons p rest ihl =>
    intro s s1 h
    simp only [extractParams] at h
    cases h1 : extractDeclaration f p s with
    | error e => rw [h1] at h; cases h
    | ok s0 =>
      rw [h1] at h
      rw [extractDeclaration_eq] at h1
      cases hsb : specBoundNames f p with
      | error e => rw [hsb] at h1; cases h1
      | ok ns =>
        rw [hsb] at h1
        obtain ⟨ms, hms⟩ := ihl _ _ h
        refine ⟨ns ++ ms, ?_⟩
        cases h1
        simp [hms, List.append_assoc]

/-- Every node has positive size. -/
lemma nodeSize_pos : ∀ n : Node, 1 ≤ nodeSize n := by
  intro n
  cases n <;> simp [nodeSize] <;> omega

/-- A list member is at most as large as the list. -/
lemma nodeSize_le_of_mem : ∀ (l : List Node) (x : Node), x ∈ l → nodeSize x ≤ nodesSize l := by
  intro l
  induction l with
  | nil => intro x hx; cases hx
  | cons c cs ihl =>
    intro x hx
    rcases List.mem_cons.mp hx with h | h
    · subst h; simp [nodesSize]
    · have := ihl x h; simp [nodesSize]; omega

/-- A present element of an array with holes is at most as large as the
array. -/
lemma nodeSize_le_of_mem_opts :
    ∀ (l : List (Option Node)) (x : Node), some x ∈ l → nodeSize x ≤ optsSize l := by
  intro l
  induction l with
  | nil => intro x hx; cases hx
  | cons o cs ihl =>
    intro x hx
    rcases List.mem_cons.mp hx with h | h
    · cases h; simp [optsSize]
    · have := ihl x h
      cases o <;> simp [optsSize] <;> omega

/-- Fuel only guards the recursion depth of `specBoundNames`: a successful
run is reproduced by any fuel exceeding the pattern size
(object-pattern step). -/
lemma specBoundProps_stable (f k : Nat)
    (IH : ∀ (p : Node) (ns : List String) (k2 : Nat),
      specBoundNames f p = .ok ns → nodeSize p < k2 → specBoundNames k2 p = .ok ns) :
    ∀ (l : List Node) (ns : List String),
      specBoundProps (specBoundNames f) l = .ok ns → nodesSize l < k →
      specBoundProps (specBoundNames k) l = .ok ns := by
  intro l
  induction l with
  | nil => intro ns h _; simpa [specBoundProps] using h
  | cons p rest ihl =>
    intro ns h hsz
    cases p
    case RestElement a =>
      simp only [specBoundProps] at h ⊢
      cases h1 : specBoundNames f a with
      | error e => rw [h1] at h; cases h
      | ok ns1 =>
        rw [h1] at h
        have e1 : nodesSize (Node.RestElement a :: rest)
            = nodeSize (Node.RestElement a) + nodesSize rest := by simp [nodesSize]
        have e2 : nodeSize (Node.RestElement a : Node) = 1 + nodeSize a := by
          simp [nodeSize]
        have ha : nodeSize a < k := by omega
        rw [IH a ns1 k h1 ha]
        cases h2 : specBoundProps (specBoundNames f) rest with
        | error e => rw [h2] at h; cases h
        | ok ms =>
          rw [h2] at h
          have : nodesSize rest < k := by omega
          rw [ihl ms h2 this]
          exact h
    case Property pk pv comp sh kind =>
      simp only [specBoundProps] at h ⊢
      cases h1 : specBoundNames f pv with
      | error e => rw [h1] at h; cases h
      | ok ns1 =>
        rw [h1] at h
        have e1 : nodesSize (Node.Property pk pv comp sh kind :: rest)
            = nodeSize (Node.Property pk pv comp sh kind) + nodesSize rest := by
          simp [nodesSize]
        have e2 : nodeSize (Node.Property pk pv comp sh kind : Node)
            = 1 + nodeSize pk + nodeSize pv := by simp [nodeSize]
        have ha : nodeSize pv < k := by omega
        rw [IH pv ns1 k h1 ha]
        cases h2 : specBoundProps (specBoundNames f) rest with
        | error e => rw [h2] at h; cases h
        | ok ms =>
          rw [h2] at h
          have : nodesSize rest < k := by
            have := nodeSize_pos pk
            have := nodeSize_pos pv
            omega
          rw [ihl ms h2 this]
          exact h
    all_goals (simp only [specBoundProps] at h; cases h)

/-- Fuel only guards the recursion depth of `specBoundNames`
(array-pattern step). -/
lemma specBoundElems_stable (f k : Nat)
    (IH : ∀ (p : Node) (ns : List String) (k2 : Nat),
      specBoundNames f p = .ok ns → nodeSize p < k2 → specBoundNames k2 p = .ok ns) :
    ∀ (l : List (Option Node)) (ns : List String),
      specBoundElems (specBoundNames f) l = .ok ns → optsSize l < k →
      specBoundElems (specBoundNames k) l = .ok ns := by
  intro l
  induction l with
  | nil => intro ns h _; simpa [specBoundElems] using h
  | cons o rest ihl =>
    intro ns h hsz
    cases o with
    | none =>
      simp only [specBoundElems] at h ⊢
      simp only [optsSize] at hsz
      exact ihl ns h hsz
    | some e =>
      simp only [specBoundElems] at h ⊢
      cases h1 : specBoundNames f e with
      | error er => rw [h1] at h; cases h
      | ok ns1 =>
        rw [h1] at h
        have ha : nodeSize e < k := by simp [optsSize] at hsz; omega
        rw [IH e ns1 k h1 ha]
        cases h2 : specBoundElems (specBoundNames f) rest with
        | error er => rw [h2] at h; cases h
        | ok ms =>
          rw [h2] at h
          have : optsSize rest < k := by
            simp [optsSize] at hsz
            have := nodeSize_pos e
            omega
          rw [ihl ms h2 this]
          exact h

/-- Fuel only guards the recursion depth of `specBoundNames`: a successful
run is reproduced by any fuel exceeding the pattern size. -/
lemma specBoundNames_stable :
    ∀ (f : Nat) (p : Node) (ns : List String) (k : Nat),
      specBoundNames f p = .ok ns → nodeSize p < k → specBoundNames k p = .ok ns := by
  intro f
  induction f with
  | zero => intro p ns k h; cases h
  | succ f ih =>
    intro p ns k h hk
    have hk1 : 1 ≤ nodeSize p := nodeSize_pos p
    obtain ⟨k', rfl⟩ : ∃ k', k = k' + 1 := ⟨k - 1, by omega⟩
    cases p
    case Identifier name => simpa [specBoundNames] using h
    case ObjectPattern props =>
      simp only [specBoundNames] at h ⊢
      have : nodesSize props < k' := by simp [nodeSize] at hk; omega
      exact specBoundProps_stable f k' ih props ns h this
    case ArrayPattern els =>
      simp only [specBoundNames] at h ⊢
      have : optsSize els < k' := by simp [nodeSize] at hk; omega
      exact specBoundElems_stable f k' ih els ns h this
    case RestElement a =>
      simp only [specBoundNames] at h ⊢
      have : nodeSize a < k' := by simp [nodeSize] at hk; omega
      exact ih a ns k' h this
    case AssignmentPattern l r =>
      simp only [specBoundNames] at h ⊢
      have : nodeSize l < k' := by
        simp [nodeSize] at hk
        have := nodeSize_pos r
        omega
      exact ih l ns k' h this
    all_goals (simp only [specBoundNames] at h; cases h)

/-- Fuel independence for the parameter-scan loop: a successful scan is
reproduced by any fuel exceeding the total parameter size. -/
lemma extractParams_stable :
    ∀ (f : Nat) (ps : List Node) (s s1 : List String) (k : Nat),
      extractParams f ps s = .ok s1 → nodesSize ps < k → extractParams k ps s = .ok s1 := by
  intro f ps
  induction ps with
  | nil => intro s s1 k h _; simpa [extractParams] using h
  | cons p rest ihl =>
    intro s s1 k h hsz
    simp only [extractParams] at h ⊢
    cases h1 : extractDeclaration f p s with
    | error e => rw [h1] at h; cases h
    | ok s0 =>
      rw [h1] at h
      rw [extractDeclaration_eq] at h1
      cases hsb : specBoundNames f p with
      | error e => rw [hsb] at h1; cases h1
      | ok ns =>
        rw [hsb] at h1
        have e1 : nodesSize (p :: rest) = nodeSize p + nodesSize rest := by
          simp [nodesSize]
        have hp : nodeSize p < k := by
          have := nodeSize_pos p
          omega
        have h2 : specBoundNames k p = .ok ns := specBoundNames_stable f p ns k hsb hp
        rw [extractDeclaration_eq, h2]
        simp only [Except.map] at h1 ⊢
        injection h1 with h1e
        subst h1e
        have : nodesSize rest < k := by
          have := nodeSize_pos p
          omega
        exact ihl _ _ _ h this

/-- Scope preservation for a one-child generic traversal. -/
lemma walk1_scope {w : Node → List String → Res} {rb : Node → Node}
    {orig c : Node} {s : List String} {r : Node} {ch : Bool} {s' : List String}
    (W : ∀ n s r ch s', w n s = .ok (r, ch, s') → s' = s)
    (h : walk1 w rb orig c s = .ok (r, ch, s')) : s' = s := by
  unfold walk1 at h
  split at h
  · exact Except.noConfusion h
  · rename_i r1 ch1 s1 heq
    have hs := W _ _ _ _ _ heq
    split at h <;>
      (simp only [Except.ok.injEq, Prod.mk.injEq] at h; obtain ⟨h2, h3, h4⟩ := h;
       subst h4; exact hs)

/-- Scope preservation for a two-child generic traversal. -/
lemma walk2_scope {w : Node → List String → Res} {rb : Node → Node → Node}
    {orig c1 c2 : Node} {s : List String} {r : Node} {ch : Bool} {s' : List String}
    (W : ∀ n s r ch s', w n s = .ok (r, ch, s') → s' = s)
    (h : walk2 w rb orig c1 c2 s = .ok (r, ch, s')) : s' = s := by
  unfold walk2 at h
  split at h
  · exact Except.noConfusion h
  · rename_i r1 ch1 s1 heq1
    split at h
    · exact Except.noConfusion h
    · rename_i r2 ch2 s2 heq2
      have e1 := W _ _ _ _ _ heq1
      have e2 := W _ _ _ _ _ heq2
      split at h <;>
        (simp only [Except.ok.injEq, Prod.mk.injEq] at h; obtain ⟨h3, h4, h5⟩ := h;
         subst h5; exact e2.trans e1)

/-- Scope preservation for a three-child generic traversal. -/
lemma walk3_scope {w : Node → List String → Res} {rb : Node → Node → Node → Node}
    {orig c1 c2 c3 : Node} {s : List String} {r : Node} {ch : Bool} {s' : List String}
    (W : ∀ n s r ch s', w n s = .ok (r, ch, s') → s' = s)
    (h : walk3 w rb orig c1 c2 c3 s = .ok (r, ch, s')) : s' = s := by
  unfold walk3 at h
  split at h
  · exact Except.noConfusion h
  · rename_i r1 ch1 s1 heq1
    split at h
    · exact Except.noConfusion h
    · rename_i r2 ch2 s2 heq2
      split at h
      · exact Except.noConfusion h
      · rename_i r3 ch3 s3 heq3
        have e1 := W _ _ _ _ _ heq1
        have e2 := W _ _ _ _ _ heq2
        have e3 := W _ _ _ _ _ heq3
        split at h <;>
          (simp only [Except.ok.injEq, Prod.mk.injEq] at h; obtain ⟨h4, h5, h6⟩ := h;
           subst h6; exact (e3.trans e2).trans e1)

/-- Scope preservation for a child-list traversal. -/
lemma walkList_scope {w : Node → List String → Res}
    (W : ∀ n s r ch s', w n s = .ok (r, ch, s') → s' = s) :
    ∀ (l : List Node) (s : List String) (rs : List Node) (ch : Bool)
      (s' : List String), walkList w l s = .ok (rs, ch, s') → s' = s := by
  intro l
  induction l with
  | nil =>
    intro s rs ch s' h
    simp only [walkList, Except.ok.injEq, Prod.mk.injEq] at h
    exact h.2.2.symm
  | cons c cs ihl =>
    intro s rs ch s' h
    simp only [walkList] at h
    split at h
    · exact Except.noConfusion h
    · rename_i r1 ch1 s1 heq1
      split at h
      · exact Except.noConfusion h
      · rename_i rs2 chs s2 heq2
        simp only [Except.ok.injEq, Prod.mk.injEq] at h
        obtain ⟨h3, h4, h5⟩ := h
        subst h5
        exact (ihl _ _ _ _ heq2).trans (W _ _ _ _ _ heq1)

/-- Scope preservation for a holes-list traversal. -/
lemma walkOpts_scope {w : Node → List String → Res}
    (W : ∀ n s r ch s', w n s = .ok (r, ch, s') → s' = s) :
    ∀ (l : List (Option Node)) (s : List String) (rs : List (Option Node))
      (ch : Bool) (s' : List String), walkOpts w l s = .ok (rs, ch, s') → s' = s := by
  intro l
  induction l with
  | nil =>
    intro s rs ch s' h
    simp only [walkOpts, Except.ok.injEq, Prod.mk.injEq] at h
    exact h.2.2.symm
  | cons o cs ihl =>
    intro s rs ch s' h
    cases o with
    | none =>
      simp only [walkOpts] at h
      split at h
      · exact Except.noConfusion h
      · rename_i rs2 chs s2 heq2
        simp only [Except.ok.injEq, Prod.mk.injEq] at h
        obtain ⟨h3, h4, h5⟩ := h
        subst h5
        exact ihl _ _ _ _ heq2
    | some c =>
      simp only [walkOpts] at h
      split at h
      · exact Except.noConfusion h
      · rename_i r1 ch1 s1 heq1
        split at h
        · exact Except.noConfusion h
        · rename_i rs2 chs s2 heq2
          simp only [Except.ok.injEq, Prod.mk.injEq] at h
          obtain ⟨h3, h4, h5⟩ := h
          subst h5
          exact (ihl _ _ _ _ heq2).trans (W _ _ _ _ _ heq1)

/-- Scope preservation for a node with one list field. -/
lemma walkL_scope {w : Node → List String → Res} {rb : List Node → Node}
    {orig : Node} {l : List Node} {s : List String} {r : Node} {ch : Bool}
    {s' : List String}
    (W : ∀ n s r ch s', w n s = .ok (r, ch, s') → s' = s)
    (h : walkL w rb orig l s = .ok (r, ch, s')) : s' = s := by
  unfold walkL at h
  split at h
  · exact Except.noConfusion h
  · rename_i rs ch1 s1 heq
    have hs := walkList_scope W _ _ _ _ _ heq
    split at h <;>
      (simp only [Except.ok.injEq, Prod.mk.injEq] at h; obtain ⟨h2, h3, h4⟩ := h;
       subst h4; exact hs)

/-- Scope preservation for a node with one holes-list field. -/
lemma walkO_scope {w : Node → List String → Res} {rb : List (Option Node) → Node}
    {orig : Node} {l : List (Option Node)} {s : List String} {r : Node} {ch : Bool}
    {s' : List String}
    (W : ∀ n s r ch s', w n s = .ok (r, ch, s') → s' = s)
    (h : walkO w rb orig l s = .ok (r, ch, s')) : s' = s := by
  unfold walkO at h
  split at h
  · exact Except.noConfusion h
  · rename_i rs ch1 s1 heq
    have hs := walkOpts_scope W _ _ _ _ _ heq
    split at h <;>
      (simp only [Except.ok.injEq, Prod.mk.injEq] at h; obtain ⟨h2, h3, h4⟩ := h;
       subst h4; exact hs)

/-- Scope preservation for a node with two list fields. -/
lemma walkLL_scope {w : Node → List String → Res} {rb : List Node → List Node → Node}
    {orig : Node} {l1 l2 : List Node} {s : List String} {r : Node} {ch : Bool}
    {s' : List String}
    (W : ∀ n s r ch s', w n s = .ok (r, ch, s') → s' = s)
    (h : walkLL w rb orig l1 l2 s = .ok (r, ch, s')) : s' = s := by
  unfold walkLL at h
  split at h
  · exact Except.noConfusion h
  · rename_i r1 ch1 s1 heq1
    split at h
    · exact Except.noConfusion h
    · rename_i r2 ch2 s2 heq2
      have e1 := walkList_scope W _ _ _ _ _ heq1
      have e2 := walkList_scope W _ _ _ _ _ heq2
      split at h <;>
        (simp only [Except.ok.injEq, Prod.mk.injEq] at h; obtain ⟨h3, h4, h5⟩ := h;
         subst h5; exact e2.trans e1)

/-- Scope preservation for a node with a child and a list field. -/
lemma walk1L_scope {w : Node → List String → Res} {rb : Node → List Node → Node}
    {orig c : Node} {l : List Node} {s : List String} {r : Node} {ch : Bool}
    {s' : List String}
    (W : ∀ n s r ch s', w n s = .ok (r, ch, s') → s' = s)
    (h : walk1L w rb orig c l s = .ok (r, ch, s')) : s' = s := by
  unfold walk1L at h
  split at h
  · exact Except.noConfusion h
  · rename_i r1 ch1 s1 heq1
    split at h
    · exact Except.noConfusion h
    · rename_i rs chs s2 heq2
      have e1 := W _ _ _ _ _ heq1
      have e2 := walkList_scope W _ _ _ _ _ heq2
      split at h <;>
        (simp only [Except.ok.injEq, Prod.mk.injEq] at h; obtain ⟨h3, h4, h5⟩ := h;
         subst h5; exact e2.trans e1)

/-- Scope preservation for the conditional visit of a non-computed child
(`computed ? walk(child) : child`). -/
lemma walkCond_scope {w : Node → List String → Res} {comp : Bool} {p : Node}
    {s1 : List String} {rp : Node} {ch : Bool} {s2 : List String}
    (W : ∀ n s r ch s', w n s = .ok (r, ch, s') → s' = s)
    (h : (if comp = true then w p s1 else .ok (p, false, s1)) = .ok (rp, ch, s2)) :
    s2 = s1 := by
  by_cases hc : comp = true
  · rw [if_pos hc] at h; exact W _ _ _ _ _ h
  · rw [if_neg hc] at h
    simp only [Except.ok.injEq, Prod.mk.injEq] at h
    exact h.2.2.symm

/-- Inversion of a successful walker visit: the policy hook admitted the
node and the dispatch step produced the result. -/
lemma walk_succ_ok {cfg : Enables} {g : Option String} {f : Nat} {n : Node}
    {s : List String} {r : Node} {ch : Bool} {s' : List String}
    (h : walk cfg g (f + 1) n s = .ok (r, ch, s')) :
    enter cfg n = .ok () ∧ walkStep (walk cfg g f) f g n s = .ok (r, ch, s') := by
  simp only [walk] at h
  split at h
  · exact Except.noConfusion h
  · rename_i u heq
    exact ⟨by cases u; exact heq, h⟩

/-- The walker returns the scope list exactly as it received it: every
`push` performed by the arrow-function handler is undone by its `splice`. -/
theorem walk_scope (cfg : Enables) (g : Option String) :
    ∀ (f : Nat) (n : Node) (s : List String) (r : Node) (ch : Bool)
      (s' : List String), walk cfg g f n s = .ok (r, ch, s') → s' = s := by
  intro f
  induction f with
  | zero => intro n s r ch s' h; exact Except.noConfusion h
  | succ f ih =>
    intro n s r ch s' h
    have hsk := walk_succ_ok h
    clear h
    obtain ⟨hen, h⟩ := hsk
    clear hen
    cases n
    case Identifier name =>
      simp only [walkStep] at h
      split at h
      · simp only [Except.ok.injEq, Prod.mk.injEq] at h
        exact h.2.2.symm
      · split at h
        · exact Except.noConfusion h
        · simp only [Except.ok.injEq, Prod.mk.injEq] at h
          exact h.2.2.symm
    case ArrowFunctionExpression ps body async =>
      simp only [walkStep] at h
      split at h
      · exact Except.noConfusion h
      · split at h
        · exact Except.noConfusion h
        · rename_i s1 heq1
          split at h
          · exact Except.noConfusion h
          · rename_i b ch2 s2 heq2
            have hb : s2 = s1 := ih _ _ _ _ _ heq2
            obtain ⟨ns, hns⟩ := extractParams_append f ps s s1 heq1
            split at h <;>
              (simp only [Except.ok.injEq, Prod.mk.injEq] at h;
               obtain ⟨h3, h4, h5⟩ := h; subst h5; rw [hb, hns];
               exact List.take_left s ns)
    case MemberExpression o p comp opt =>
      simp only [walkStep] at h
      split at h
      · exact Except.noConfusion h
      · split at h
        · exact Except.noConfusion h
        · split at h
          · exact Except.noConfusion h
          · rename_i ro cho s1 heq1
            split at h
            · exact Except.noConfusion h
            · rename_i rp chp s2 heq2
              have e1 : s1 = s := ih _ _ _ _ _ heq1
              have e2 : s2 = s1 := walkCond_scope ih heq2
              split at h <;>
                (simp only [Except.ok.injEq, Prod.mk.injEq] at h;
                 obtain ⟨h3, h4, h5⟩ := h; subst h5; exact e2.trans e1)
    case Property k v comp sh kind =>
      simp only [walkStep] at h
      split at h
      · exact Except.noConfusion h
      · split at h
        · exact Except.noConfusion h
        · rename_i rk chk s1 heq1
          split at h
          · exact Except.noConfusion h
          · rename_i rv chv s2 heq2
            have e1 : s1 = s := walkCond_scope ih heq1
            have e2 : s2 = s1 := ih _ _ _ _ _ heq2
            split at h <;>
              (simp only [Except.ok.injEq, Prod.mk.injEq] at h;
               obtain ⟨h3, h4, h5⟩ := h; subst h5; exact e2.trans e1)
    case ArrayExpression es =>
      simp only [walkStep] at h
      exact walkO_scope ih h
    case ObjectExpression ps' =>
      simp only [walkStep] at h
      exact walkL_scope ih h
    case ChainExpression e1 =>
      simp only [walkStep] at h
      exact walk1_scope ih h
    case LogicalExpression op l r =>
      simp only [walkStep] at h
      exact walk2_scope ih h
    case SequenceExpression es =>
      simp only [walkStep] at h
      exact walkL_scope ih h
    case ConditionalExpression a b c =>
      simp only [walkStep] at h
      exact walk3_scope ih h
    case TemplateLiteral qs es =>
      simp only [walkStep] at h
      exact walkLL_scope ih h
    case UnaryExpression op a =>
      simp only [walkStep] at h
      exact walk1_scope ih h
    case BinaryExpression op l r =>
      simp only [walkStep] at h
      exact walk2_scope ih h
    case UpdateExpression op a pre =>
      simp only [walkStep] at h
      exact walk1_scope ih h
    case AssignmentExpression op l r =>
      simp only [walkStep] at h
      exact walk2_scope ih h
    case NewExpression c as =>
      simp only [walkStep] at h
      exact walk1L_scope ih h
    case CallExpression c as opt =>
      simp only [walkStep] at h
      exact walk1L_scope ih h
    case TaggedTemplateExpression t q =>
      simp only [walkStep] at h
      exact walk2_scope ih h
    case SpreadElement a =>
      simp only [walkStep] at h
      exact walk1_scope ih h
    case RestElement a =>
      simp only [walkStep] at h
      exact walk1_scope ih h
    case ObjectPattern ps' =>
      simp only [walkStep] at h
      exact walkL_scope ih h
    case ArrayPattern es =>
      simp only [walkStep] at h
      exact walkO_scope ih h
    case AssignmentPattern l r =>
      simp only [walkStep] at h
      exact walk2_scope ih h
    case AwaitExpression a =>
      simp only [walkStep] at h
      exact walk1_scope ih h
    case ImportExpression a =>
      simp only [walkStep] at h
      exact walk1_scope ih h
    all_goals
      (simp only [walkStep, Except.ok.injEq, Prod.mk.injEq] at h; exact h.2.2.symm)

/-- A one-child traversal that reports no change returns the original node. -/
lemma walk1_false {w : Node → List String → Res} {rb : Node → Node}
    {orig c : Node} {s : List String} {r : Node} {s' : List String}
    (h : walk1 w rb orig c s = .ok (r, false, s')) : r = orig := by
  unfold walk1 at h
  split at h
  · exact Except.noConfusion h
  · split at h <;> simp only [Except.ok.injEq, Prod.mk.injEq] at h
    · exact absurd h.2.1.symm Bool.false_ne_true
    · exact h.1.symm

/-- A two-child traversal that reports no change returns the original node. -/
lemma walk2_false {w : Node → List String → Res} {rb : Node → Node → Node}
    {orig c1 c2 : Node} {s : List String} {r : Node} {s' : List String}
    (h : walk2 w rb orig c1 c2 s = .ok (r, false, s')) : r = orig := by
  unfold walk2 at h
  split at h
  · exact Except.noConfusion h
  · split at h
    · exact Except.noConfusion h
    · split at h <;> simp only [Except.ok.injEq, Prod.mk.injEq] at h
      · exact absurd h.2.1.symm Bool.false_ne_true
      · exact h.1.symm

/-- A three-child traversal that reports no change returns the original
node. -/
lemma walk3_false {w : Node → List String → Res} {rb : Node → Node → Node → Node}
    {orig c1 c2 c3 : Node} {s : List String} {r : Node} {s' : List String}
    (h : walk3 w rb orig c1 c2 c3 s = .ok (r, false, s')) : r = orig := by
  unfold walk3 at h
  split at h
  · exact Except.noConfusion h
  · split at h
    · exact Except.noConfusion h
    · split at h
      · exact Except.noConfusion h
      · split at h <;> simp only [Except.ok.injEq, Prod.mk.injEq] at h
        · exact absurd h.2.1.symm Bool.false_ne_true
        · exact h.1.symm

/-- A list traversal that reports no change returns the original node. -/
lemma walkL_false {w : Node → List String → Res} {rb : List Node → Node}
    {orig : Node} {l : List Node} {s : List String} {r : Node} {s' : List String}
    (h : walkL w rb orig l s = .ok (r, false, s')) : r = orig := by
  unfold walkL at h
  split at h
  · exact Except.noConfusion h
  · split at h <;> simp only [Except.ok.injEq, Prod.mk.injEq] at h
    · exact absurd h.2.1.symm Bool.false_ne_true
    · exact h.1.symm

/-- A holes-list traversal that reports no change returns the original
node. -/
lemma walkO_false {w : Node → List String → Res} {rb : List (Option Node) → Node}
    {orig : Node} {l : List (Option Node)} {s : List String} {r : Node}
    {s' : List String}
    (h : walkO w rb orig l s = .ok (r, false, s')) : r = orig := by
  unfold walkO at h
  split at h
  · exact Except.noConfusion h
  · split at h <;> simp only [Except.ok.injEq, Prod.mk.injEq] at h
    · exact absurd h.2.1.symm Bool.false_ne_true
    · exact h.1.symm

/-- A two-list traversal that reports no change returns the original node. -/
lemma walkLL_false {w : Node → List String → Res} {rb : List Node → List Node → Node}
    {orig : Node} {l1 l2 : List Node} {s : List String} {r : Node} {s' : List String}
    (h : walkLL w rb orig l1 l2 s = .ok (r, false, s')) : r = orig := by
  unfold walkLL at h
  split at h
  · exact Except.noConfusion h
  · split at h
    · exact Except.noConfusion h
    · split at h <;> simp only [Except.ok.injEq, Prod.mk.injEq] at h
      · exact absurd h.2.1.symm Bool.false_ne_true
      · exact h.1.symm

/-- A child-and-list traversal that reports no change returns the original
node. -/
lemma walk1L_false {w : Node → List String → Res} {rb : Node → List Node → Node}
    {orig c : Node} {l : List Node} {s : List String} {r : Node} {s' : List String}
    (h : walk1L w rb orig c l s = .ok (r, false, s')) : r = orig := by
  unfold walk1L at h
  split at h
  · exact Except.noConfusion h
  · split at h
    · exact Except.noConfusion h
    · split at h <;> simp only [Except.ok.injEq, Prod.mk.injEq] at h
      · exact absurd h.2.1.symm Bool.false_ne_true
      · exact h.1.symm

/-- The walker's change flag is truthful downward: a visit reporting `false`
returns its input node (the model of returning the original reference). -/
theorem walk_false_id {cfg : Enables} {g : Option String} {f : Nat} {n : Node}
    {s : List String} {r : Node} {s' : List String}
    (h : walk cfg g f n s = .ok (r, false, s')) : r = n := by
  cases f with
  | zero => exact Except.noConfusion h
  | succ f =>
    have hsk := walk_succ_ok h
    clear h
    obtain ⟨hen, h⟩ := hsk
    clear hen
    cases n
    case Identifier name =>
      simp only [walkStep] at h
      split at h
      · simp only [Except.ok.injEq, Prod.mk.injEq] at h
        exact h.1.symm
      · split at h
        · exact Except.noConfusion h
        · simp only [Except.ok.injEq, Prod.mk.injEq] at h
          exact absurd h.2.1.symm Bool.false_ne_true
    case ArrowFunctionExpression ps body async =>
      simp only [walkStep] at h
      split at h
      · exact Except.noConfusion h
      · split at h
        · exact Except.noConfusion h
        · rename_i s1 heq1
          split at h
          · exact Except.noConfusion h
          · rename_i b ch2 s2 heq2
            split at h <;> simp only [Except.ok.injEq, Prod.mk.injEq] at h
            · exact absurd h.2.1.symm Bool.false_ne_true
            · exact h.1.symm
    case MemberExpression o p comp opt =>
      simp only [walkStep] at h
      split at h
      · exact Except.noConfusion h
      · split at h
        · exact Except.noConfusion h
        · split at h
          · exact Except.noConfusion h
          · rename_i ro cho s1 heq1
            split at h
            · exact Except.noConfusion h
            · rename_i rp chp s2 heq2
              split at h <;> simp only [Except.ok.injEq, Prod.mk.injEq] at h
              · exact absurd h.2.1.symm Bool.false_ne_true
              · exact h.1.symm
    case Property k v comp sh kind =>
      simp only [walkStep] at h
      split at h
      · exact Except.noConfusion h
      · split at h
        · exact Except.noConfusion h
        · rename_i rk chk s1 heq1
          split at h
          · exact Except.noConfusion h
          · rename_i rv chv s2 heq2
            split at h <;> simp only [Except.ok.injEq, Prod.mk.injEq] at h
            · exact absurd h.2.1.symm Bool.false_ne_true
            · exact h.1.symm
    case ArrayExpression es => exact walkO_false h
    case ObjectExpression ps' => exact walkL_false h
    case ChainExpression e1 => exact walk1_false h
    case LogicalExpression op l r2 => exact walk2_false h
    case SequenceExpression es => exact walkL_false h
    case ConditionalExpression a b c => exact walk3_false h
    case TemplateLiteral qs es => exact walkLL_false h
    case UnaryExpression op a => exact walk1_false h
    case BinaryExpression op l r2 => exact walk2_false h
    case UpdateExpression op a pre => exact walk1_false h
    case AssignmentExpression op l r2 => exact walk2_false h
    case NewExpression c as => exact walk1L_false h
    case CallExpression c as opt => exact walk1L_false h
    case TaggedTemplateExpression t q => exact walk2_false h
    case SpreadElement a => exact walk1_false h
    case RestElement a => exact walk1_false h
    case ObjectPattern ps' => exact walkL_false h
    case ArrayPattern es => exact walkO_false h
    case AssignmentPattern l r2 => exact walk2_false h
    case AwaitExpression a => exact walk1_false h
    case ImportExpression a => exact walk1_false h
    all_goals
      (simp only [walkStep, Except.ok.injEq, Prod.mk.injEq] at h; exact h.1.symm)

/-- Output form of a one-child traversal: the original node or a rebuild. -/
lemma walk1_shape {w : Node → List String → Res} {rb : Node → Node}
    {orig c : Node} {s : List String} {r : Node} {ch : Bool} {s' : List String}
    (h : walk1 w rb orig c s = .ok (r, ch, s')) : r = orig ∨ ∃ x, r = rb x := by
  unfold walk1 at h
  split at h
  · exact Except.noConfusion h
  · rename_i r1 ch1 s1 heq
    split at h <;> simp only [Except.ok.injEq, Prod.mk.injEq] at h
    · exact Or.inr ⟨r1, h.1.symm⟩
    · exact Or.inl h.1.symm

/-- Output form of a two-child traversal. -/
lemma walk2_shape {w : Node → List String → Res} {rb : Node → Node → Node}
    {orig c1 c2 : Node} {s : List String} {r : Node} {ch : Bool} {s' : List String}
    (h : walk2 w rb orig c1 c2 s = .ok (r, ch, s')) : r = orig ∨ ∃ x y, r = rb x y := by
  unfold walk2 at h
  split at h
  · exact Except.noConfusion h
  · rename_i r1 ch1 s1 heq1
    split at h
    · exact Except.noConfusion h
    · rename_i r2 ch2 s2 heq2
      split at h <;> simp only [Except.ok.injEq, Prod.mk.injEq] at h
      · exact Or.inr ⟨r1, r2, h.1.symm⟩
      · exact Or.inl h.1.symm

/-- Output form of a three-child traversal. -/
lemma walk3_shape {w : Node → List String → Res} {rb : Node → Node → Node → Node}
    {orig c1 c2 c3 : Node} {s : List String} {r : Node} {ch : Bool} {s' : List String}
    (h : walk3 w rb orig c1 c2 c3 s = .ok (r, ch, s')) :
    r = orig ∨ ∃ x y z, r = rb x y z := by
  unfold walk3 at h
  split at h
  · exact Except.noConfusion h
  · rename_i r1 ch1 s1 heq1
    split at h
    · exact Except.noConfusion h
    · rename_i r2 ch2 s2 heq2
      split at h
      · exact Except.noConfusion h
      · rename_i r3 ch3 s3 heq3
        split at h <;> simp only [Except.ok.injEq, Prod.mk.injEq] at h
        · exact Or.inr ⟨r1, r2, r3, h.1.symm⟩
        · exact Or.inl h.1.symm

/-- Output form of a list traversal. -/
lemma walkL_shape {w : Node → List String → Res} {rb : List Node → Node}
    {orig : Node} {l : List Node} {s : List String} {r : Node} {ch : Bool}
    {s' : List String}
    (h : walkL w rb orig l s = .ok (r, ch, s')) : r = orig ∨ ∃ xs, r = rb xs := by
  unfold walkL at h
  split at h
  · exact Except.noConfusion h
  · rename_i rs ch1 s1 heq
    split at h <;> simp only [Except.ok.injEq, Prod.mk.injEq] at h
    · exact Or.inr ⟨rs, h.1.symm⟩
    · exact Or.inl h.1.symm

/-- Output form of a holes-list traversal. -/
lemma walkO_shape {w : Node → List String → Res} {rb : List (Option Node) → Node}
    {orig : Node} {l : List (Option Node)} {s : List String} {r : Node} {ch : Bool}
    {s' : List String}
    (h : walkO w rb orig l s = .ok (r, ch, s')) : r = orig ∨ ∃ xs, r = rb xs := by
  unfold walkO at h
  split at h
  · exact Except.noConfusion h
  · rename_i rs ch1 s1 heq
    split at h <;> simp only [Except.ok.injEq, Prod.mk.injEq] at h
    · exact Or.inr ⟨rs, h.1.symm⟩
    · exact Or.inl h.1.symm

/-- Output form of a two-list traversal. -/
lemma walkLL_shape {w : Node → List String → Res} {rb : List Node → List Node → Node}
    {orig : Node} {l1 l2 : List Node} {s : List String} {r : Node} {ch : Bool}
    {s' : List String}
    (h : walkLL w rb orig l1 l2 s = .ok (r, ch, s')) :
    r = orig ∨ ∃ xs ys, r = rb xs ys := by
  unfold walkLL at h
  split at h
  · exact Except.noConfusion h
  · rename_i r1 ch1 s1 heq1
    split at h
    · exact Except.noConfusion h
    · rename_i r2 ch2 s2 heq2
      split at h <;> simp only [Except.ok.injEq, Prod.mk.injEq] at h
      · exact Or.inr ⟨r1, r2, h.1.symm⟩
      · exact Or.inl h.1.symm

/-- Output form of a child-and-list traversal. -/
lemma walk1L_shape {w : Node → List String → Res} {rb : Node → List Node → Node}
    {orig c : Node} {l : List Node} {s : List String} {r : Node} {ch : Bool}
    {s' : List String}
    (h : walk1L w rb orig c l s = .ok (r, ch, s')) :
    r = orig ∨ ∃ x ys, r = rb x ys := by
  unfold walk1L at h
  split at h
  · exact Except.noConfusion h
  · rename_i r1 ch1 s1 heq1
    split at h
    · exact Except.noConfusion h
    · rename_i rs chs s2 heq2
      split at h <;> simp only [Except.ok.injEq, Prod.mk.injEq] at h
      · exact Or.inr ⟨r1, rs, h.1.symm⟩
      · exact Or.inl h.1.symm

/-- The walker never returns a `Super`, `PrivateIdentifier` or
`BlockStatement` node: such nodes are rejected on entry, and all rebuilds
produce admitted kinds. -/
theorem walk_ok_tag {cfg : Enables} {g : Option String} {f : Nat} {n : Node}
    {s : List String} {r : Node} {ch : Bool} {s' : List String}
    (h : walk cfg g f n s = .ok (r, ch, s')) :
    isSuper r = false ∧ isPrivate r = false ∧ isBlock r = false := by
  cases f with
  | zero => exact Except.noConfusion h
  | succ f =>
    have hsk := walk_succ_ok h
    clear h
    obtain ⟨hen, h⟩ := hsk
    cases n
    case BlockStatement => simp [enter] at hen
    case Super => simp [enter] at hen
    case PrivateIdentifier name => simp [enter] at hen
    case OtherNode t => simp [enter] at hen
    case Identifier name =>
      simp only [walkStep] at h
      split at h
      · simp only [Except.ok.injEq, Prod.mk.injEq] at h
        rw [← h.1]
        exact ⟨rfl, rfl, rfl⟩
      · split at h
        · exact Except.noConfusion h
        · simp only [Except.ok.injEq, Prod.mk.injEq] at h
          rw [← h.1]
          exact ⟨rfl, rfl, rfl⟩
    case ArrowFunctionExpression ps body async =>
      simp only [walkStep] at h
      split at h
      · exact Except.noConfusion h
      · split at h
        · exact Except.noConfusion h
        · rename_i s1 heq1
          split at h
          · exact Except.noConfusion h
          · rename_i b ch2 s2 heq2
            split at h <;> simp only [Except.ok.injEq, Prod.mk.injEq] at h <;>
              (rw [← h.1]; exact ⟨rfl, rfl, rfl⟩)
    case MemberExpression o p comp opt =>
      simp only [walkStep] at h
      split at h
      · exact Except.noConfusion h
      · split at h
        · exact Except.noConfusion h
        · split at h
          · exact Except.noConfusion h
          · rename_i ro cho s1 heq1
            split at h
            · exact Except.noConfusion h
            · rename_i rp chp s2 heq2
              split at h <;> simp only [Except.ok.injEq, Prod.mk.injEq] at h <;>
                (rw [← h.1]; exact ⟨rfl, rfl, rfl⟩)
    case Property k v comp sh kind =>
      simp only [walkStep] at h
      split at h
      · exact Except.noConfusion h
      · split at h
        · exact Except.noConfusion h
        · rename_i rk chk s1 heq1
          split at h
          · exact Except.noConfusion h
          · rename_i rv chv s2 heq2
            split at h <;> simp only [Except.ok.injEq, Prod.mk.injEq] at h <;>
              (rw [← h.1]; exact ⟨rfl, rfl, rfl⟩)
    case ArrayExpression es =>
      rcases walkO_shape h with h1 | ⟨xs, h1⟩ <;> subst h1 <;> exact ⟨rfl, rfl, rfl⟩
    case ObjectExpression ps' =>
      rcases walkL_shape h with h1 | ⟨xs, h1⟩ <;> subst h1 <;> exact ⟨rfl, rfl, rfl⟩
    case ChainExpression e1 =>
      rcases walk1_shape h with h1 | ⟨x, h1⟩ <;> subst h1 <;> exact ⟨rfl, rfl, rfl⟩
    case LogicalExpression op l r2 =>
      rcases walk2_shape h with h1 | ⟨x, y, h1⟩ <;> subst h1 <;> exact ⟨rfl, rfl, rfl⟩
    case SequenceExpression es =>
      rcases walkL_shape h with h1 | ⟨xs, h1⟩ <;> subst h1 <;> exact ⟨rfl, rfl, rfl⟩
    case ConditionalExpression a b c =>
      rcases walk3_shape h with h1 | ⟨x, y, z, h1⟩ <;> subst h1 <;> exact ⟨rfl, rfl, rfl⟩
    case TemplateLiteral qs es =>
      rcases walkLL_shape h with h1 | ⟨xs, ys, h1⟩ <;> subst h1 <;> exact ⟨rfl, rfl, rfl⟩
    case UnaryExpression op a =>
      rcases walk1_shape h with h1 | ⟨x, h1⟩ <;> subst h1 <;> exact ⟨rfl, rfl, rfl⟩
    case BinaryExpression op l r2 =>
      rcases walk2_shape h with h1 | ⟨x, y, h1⟩ <;> subst h1 <;> exact ⟨rfl, rfl, rfl⟩
    case UpdateExpression op a pre =>
      rcases walk1_shape h with h1 | ⟨x, h1⟩ <;> subst h1 <;> exact ⟨rfl, rfl, rfl⟩
    case AssignmentExpression op l r2 =>
      rcases walk2_shape h with h1 | ⟨x, y, h1⟩ <;> subst h1 <;> exact ⟨rfl, rfl, rfl⟩
    case NewExpression c as =>
      rcases walk1L_shape h with h1 | ⟨x, ys, h1⟩ <;> subst h1 <;> exact ⟨rfl, rfl, rfl⟩
    case CallExpression c as opt =>
      rcases walk1L_shape h with h1 | ⟨x, ys, h1⟩ <;> subst h1 <;> exact ⟨rfl, rfl, rfl⟩
    case TaggedTemplateExpression t q =>
      rcases walk2_shape h with h1 | ⟨x, y, h1⟩ <;> subst h1 <;> exact ⟨rfl, rfl, rfl⟩
    case SpreadElement a =>
      rcases walk1_shape h with h1 | ⟨x, h1⟩ <;> subst h1 <;> exact ⟨rfl, rfl, rfl⟩
    case RestElement a =>
      rcases walk1_shape h with h1 | ⟨x, h1⟩ <;> subst h1 <;> exact ⟨rfl, rfl, rfl⟩
    case ObjectPattern ps' =>
      rcases walkL_shape h with h1 | ⟨xs, h1⟩ <;> subst h1 <;> exact ⟨rfl, rfl, rfl⟩
    case ArrayPattern es =>
      rcases walkO_shape h with h1 | ⟨xs, h1⟩ <;> subst h1 <;> exact ⟨rfl, rfl, rfl⟩
    case AssignmentPattern l r2 =>
      rcases walk2_shape h with h1 | ⟨x, y, h1⟩ <;> subst h1 <;> exact ⟨rfl, rfl, rfl⟩
    case AwaitExpression a =>
      rcases walk1_shape h with h1 | ⟨x, h1⟩ <;> subst h1 <;> exact ⟨rfl, rfl, rfl⟩
    case ImportExpression a =>
      rcases walk1_shape h with h1 | ⟨x, h1⟩ <;> subst h1 <;> exact ⟨rfl, rfl, rfl⟩
    all_goals
      (simp only [walkStep, Except.ok.injEq, Prod.mk.injEq] at h; rw [← h.1];
       exact ⟨rfl, rfl, rfl⟩)

/-- A list all of whose members walk to themselves unchanged walks to
itself unchanged. -/
lemma walkList_all_id {w : Node → List String → Res} :
    ∀ (l : List Node) (s : List String),
      (∀ x ∈ l, w x s = .ok (x, false, s)) →
      walkList w l s = .ok (l, false, s) := by
  intro l
  induction l with
  | nil => intro s _; simp [walkList]
  | cons c cs ihl =>
    intro s hall
    have hc := hall c (List.mem_cons_self _ _)
    have ht := ihl s (fun x hx => hall x (List.mem_cons_of_mem _ hx))
    simp [walkList, hc, ht]

/-- A holes-list all of whose present members walk to themselves unchanged
walks to itself unchanged. -/
lemma walkOpts_all_id {w : Node → List String → Res} :
    ∀ (l : List (Option Node)) (s : List String),
      (∀ c, some c ∈ l → w c s = .ok (c, false, s)) →
      walkOpts w l s = .ok (l, false, s) := by
  intro l
  induction l with
  | nil => intro s _; simp [walkOpts]
  | cons o cs ihl =>
    intro s hall
    cases o with
    | none =>
      have ht := ihl s (fun c hc => hall c (List.mem_cons_of_mem _ hc))
      simp [walkOpts, ht]
    | some c =>
      have hc := hall c (List.mem_cons_self _ _)
      have ht := ihl s (fun x hx => hall x (List.mem_cons_of_mem _ hx))
      simp [walkOpts, hc, ht]

/-- A list of reference-free members is returned unchanged by the list
traversal. -/
lemma walkList_clean {cfg : Enables} {g : Option String} {f : Nat} :
    ∀ (l : List Node) (s : List String) (rs : List Node) (ch : Bool)
      (s' : List String),
      (∀ x ∈ l, noFree f x s = true) →
      (∀ (n : Node) (s2 : List String) (r : Node) (ch2 : Bool) (s2' : List String),
        noFree f n s2 = true → walk cfg g f n s2 = .ok (r, ch2, s2') →
        r = n ∧ ch2 = false) →
      walkList (walk cfg g f) l s = .ok (rs, ch, s') → rs = l ∧ ch = false := by
  intro l
  induction l with
  | nil =>
    intro s rs ch s' _ _ h
    simp only [walkList, Except.ok.injEq, Prod.mk.injEq] at h
    exact ⟨h.1.symm, h.2.1.symm⟩
  | cons c cs ihl =>
    intro s rs ch s' hall W h
    simp only [walkList] at h
    split at h
    · exact Except.noConfusion h
    · rename_i r1 ch1 s1 heq1
      split at h
      · exact Except.noConfusion h
      · rename_i rs2 chs s2 heq2
        have hs1 : s1 = s := walk_scope cfg g f c s r1 ch1 s1 heq1
        obtain ⟨hr1, hch1⟩ := W c s r1 ch1 s1 (hall c (List.mem_cons_self _ _)) heq1
        rw [hs1] at heq2
        obtain ⟨hrs2, hchs⟩ :=
          ihl s rs2 chs s2 (fun x hx => hall x (List.mem_cons_of_mem _ hx)) W heq2
        simp only [Except.ok.injEq, Prod.mk.injEq] at h
        subst hr1 hch1 hrs2 hchs
        exact ⟨h.1.symm, h.2.1.symm⟩

/-- A holes-list of reference-free members is returned unchanged by the
holes-list traversal. -/
lemma walkOpts_clean {cfg : Enables} {g : Option String} {f : Nat} :
    ∀ (l : List (Option Node)) (s : List String) (rs : List (Option Node))
      (ch : Bool) (s' : List String),
      (∀ c, some c ∈ l → noFree f c s = true) →
      (∀ (n : Node) (s2 : List String) (r : Node) (ch2 : Bool) (s2' : List String),
        noFree f n s2 = true → walk cfg g f n s2 = .ok (r, ch2, s2') →
        r = n ∧ ch2 = false) →
      walkOpts (walk cfg g f) l s = .ok (rs, ch, s') → rs = l ∧ ch = false := by
  intro l
  induction l with
  | nil =>
    intro s rs ch s' _ _ h
    simp only [walkOpts, Except.ok.injEq, Prod.mk.injEq] at h
    exact ⟨h.1.symm, h.2.1.symm⟩
  | cons o cs ihl =>
    intro s rs ch s' hall W h
    cases o with
    | none =>
      simp only [walkOpts] at h
      split at h
      · exact Except.noConfusion h
      · rename_i rs2 chs s2 heq2
        obtain ⟨hrs2, hchs⟩ :=
          ihl s rs2 chs s2 (fun c hc => hall c (List.mem_cons_of_mem _ hc)) W heq2
        simp only [Except.ok.injEq, Prod.mk.injEq] at h
        subst hrs2 hchs
        exact ⟨h.1.symm, h.2.1.symm⟩
    | some c =>
      simp only [walkOpts] at h
      split at h
      · exact Except.noConfusion h
      · rename_i r1 ch1 s1 heq1
        split at h
        · exact Except.noConfusion h
        · rename_i rs2 chs s2 heq2
          have hs1 : s1 = s := walk_scope cfg g f c s r1 ch1 s1 heq1
          obtain ⟨hr1, hch1⟩ := W c s r1 ch1 s1 (hall c (List.mem_cons_self _ _)) heq1
          rw [hs1] at heq2
          obtain ⟨hrs2, hchs⟩ :=
            ihl s rs2 chs s2 (fun x hx => hall x (List.mem_cons_of_mem _ hx)) W heq2
          simp only [Except.ok.injEq, Prod.mk.injEq] at h
          subst hr1 hch1 hrs2 hchs
          exact ⟨h.1.symm, h.2.1.symm⟩

/-- A subtree with no free identifier reference that the walker processes
successfully is returned unchanged, with the change flag `false`: no
rewriting fires outside subtrees containing free identifiers. -/
theorem walk_noFree_id (cfg : Enables) (g : Option String) :
    ∀ (f : Nat) (n : Node) (s : List String) (r : Node) (ch : Bool)
      (s' : List String),
      noFree f n s = true → walk cfg g f n s = .ok (r, ch, s') →
      r = n ∧ ch = false := by
  intro f
  induction f with
  | zero => intro n s r ch s' hnf h; exact Except.noConfusion h
  | succ f ih =>
    intro n s r ch s' hnf h
    have hsk := walk_succ_ok h
    clear h
    obtain ⟨hen, h⟩ := hsk
    clear hen
    cases n
    case Identifier name =>
      simp only [noFree] at hnf
      have hm : name ∈ s := of_decide_eq_true hnf
      simp only [walkStep] at h
      rw [if_pos hm] at h
      simp only [Except.ok.injEq, Prod.mk.injEq] at h
      exact ⟨h.1.symm, h.2.1.symm⟩
    case ArrowFunctionExpression ps body async =>
      simp only [noFree] at hnf
      simp only [walkStep] at h
      split at h
      · exact Except.noConfusion h
      · split at h
        · exact Except.noConfusion h
        · rename_i s1 heq1
          simp only [heq1] at hnf
          split at h
          · exact Except.noConfusion h
          · rename_i b ch2 s2 heq2
            obtain ⟨hb, hch2⟩ := ih body s1 b ch2 s2 hnf heq2
            subst hch2
            rw [if_neg Bool.false_ne_true] at h
            simp only [Except.ok.injEq, Prod.mk.injEq] at h
            exact ⟨h.1.symm, h.2.1.symm⟩
    case MemberExpression o p comp opt =>
      simp only [noFree] at hnf
      rw [Bool.and_eq_true] at hnf
      obtain ⟨ho, hp⟩ := hnf
      simp only [walkStep] at h
      split at h
      · exact Except.noConfusion h
      · split at h
        · exact Except.noConfusion h
        · split at h
          · exact Except.noConfusion h
          · rename_i ro cho s1 heq1
            split at h
            · exact Except.noConfusion h
            · rename_i rp chp s2 heq2
              have hs1 : s1 = s := walk_scope cfg g f o s ro cho s1 heq1
              obtain ⟨hro, hcho⟩ := ih o s ro cho s1 ho heq1
              rw [hs1] at heq2
              have hrpc : rp = p ∧ chp = false := by
                by_cases hc : comp = true
                · rw [if_pos hc] at heq2
                  have hp2 : noFree f p s = true := by
                    rw [hc] at hp
                    simpa using hp
                  exact ih p s rp chp s2 hp2 heq2
                · rw [if_neg hc] at heq2
                  simp only [Except.ok.injEq, Prod.mk.injEq] at heq2
                  exact ⟨heq2.1.symm, heq2.2.1.symm⟩
              obtain ⟨hrp1, hchp⟩ := hrpc
              subst hro hcho hrp1 hchp
              simp only [Bool.or_self, if_neg Bool.false_ne_true,
                Except.ok.injEq, Prod.mk.injEq] at h
              exact ⟨h.1.symm, h.2.1.symm⟩
    case Property k v comp sh kind =>
      simp only [noFree] at hnf
      rw [Bool.and_eq_true] at hnf
      obtain ⟨hk, hv⟩ := hnf
      simp only [walkStep] at h
      split at h
      · exact Except.noConfusion h
      · split at h
        · exact Except.noConfusion h
        · rename_i rk chk s1 heq1
          split at h
          · exact Except.noConfusion h
          · rename_i rv chv s2 heq2
            have hs1 : s1 = s := walkCond_scope (walk_scope cfg g f) heq1
            have hrkc : rk = k ∧ chk = false := by
              by_cases hc : comp = true
              · rw [if_pos hc] at heq1
                have hk2 : noFree f k s = true := by
                  rw [hc] at hk
                  simpa using hk
                exact ih k s rk chk s1 hk2 heq1
              · rw [if_neg hc] at heq1
                simp only [Except.ok.injEq, Prod.mk.injEq] at heq1
                exact ⟨heq1.1.symm, heq1.2.1.symm⟩
            rw [hs1] at heq2
            obtain ⟨hrv, hchv⟩ := ih v s rv chv s2 hv heq2
            obtain ⟨hrk1, hchk⟩ := hrkc
            subst hrk1 hchk hrv hchv
            simp only [Bool.or_self, if_neg Bool.false_ne_true,
              Except.ok.injEq, Prod.mk.injEq] at h
            exact ⟨h.1.symm, h.2.1.symm⟩
    case ArrayExpression es =>
      simp only [noFree] at hnf
      have hall := List.all_eq_true.mp hnf
      simp only [walkStep] at h
      unfold walkO at h
      split at h
      · exact Except.noConfusion h
      · rename_i rs ch1 s1 heq
        obtain ⟨hrs, hch1⟩ :=
          walkOpts_clean es s rs ch1 s1 (fun c hc => hall (some c) hc) ih heq
        subst hrs hch1
        rw [if_neg Bool.false_ne_true] at h
        simp only [Except.ok.injEq, Prod.mk.injEq] at h
        exact ⟨h.1.symm, h.2.1.symm⟩
    case ObjectExpression ps' =>
      simp only [noFree] at hnf
      have hall := List.all_eq_true.mp hnf
      simp only [walkStep] at h
      unfold walkL at h
      split at h
      · exact Except.noConfusion h
      · rename_i rs ch1 s1 heq
        obtain ⟨hrs, hch1⟩ := walkList_clean ps' s rs ch1 s1 hall ih heq
        subst hrs hch1
        rw [if_neg Bool.false_ne_true] at h
        simp only [Except.ok.injEq, Prod.mk.injEq] at h
        exact ⟨h.1.symm, h.2.1.symm⟩
    case SequenceExpression es =>
      simp only [noFree] at hnf
      have hall := List.all_eq_true.mp hnf
      simp only [walkStep] at h
      unfold walkL at h
      split at h
      · exact Except.noConfusion h
      · rename_i rs ch1 s1 heq
        obtain ⟨hrs, hch1⟩ := walkList_clean es s rs ch1 s1 hall ih heq
        subst hrs hch1
        rw [if_neg Bool.false_ne_true] at h
        simp only [Except.ok.injEq, Prod.mk.injEq] at h
        exact ⟨h.1.symm, h.2.1.symm⟩
    case ObjectPattern ps' =>
      simp only [noFree] at hnf
      have hall := List.all_eq_true.mp hnf
      simp only [walkStep] at h
      unfold walkL at h
      split at h
      · exact Except.noConfusion h
      · rename_i rs ch1 s1 heq
        obtain ⟨hrs, hch1⟩ := walkList_clean ps' s rs ch1 s1 hall ih heq
        subst hrs hch1
        rw [if_neg Bool.false_ne_true] at h
        simp only [Except.ok.injEq, Prod.mk.injEq] at h
        exact ⟨h.1.symm, h.2.1.symm⟩
    case ArrayPattern es =>
      simp only [noFree] at hnf
      have hall := List.all_eq_true.mp hnf
      simp only [walkStep] at h
      unfold walkO at h
      split at h
      · exact Except.noConfusion h
      · rename_i rs ch1 s1 heq
        obtain ⟨hrs, hch1⟩ :=
          walkOpts_clean es s rs ch1 s1 (fun c hc => hall (some c) hc) ih heq
        subst hrs hch1
        rw [if_neg Bool.false_ne_true] at h
        simp only [Except.ok.injEq, Prod.mk.injEq] at h
        exact ⟨h.1.symm, h.2.1.symm⟩
    case ChainExpression e1 =>
      simp only [noFree] at hnf
      simp only [walkStep] at h
      unfold walk1 at h
      split at h
      · exact Except.noConfusion h
      · rename_i r1 ch1 s1 heq1
        obtain ⟨hr1, hch1⟩ := ih e1 s r1 ch1 s1 hnf heq1
        subst hr1 hch1
        rw [if_neg Bool.false_ne_true] at h
        simp only [Except.ok.injEq, Prod.mk.injEq] at h
        exact ⟨h.1.symm, h.2.1.symm⟩
    case UnaryExpression op a =>
      simp only [noFree] at hnf
      simp only [walkStep] at h
      unfold walk1 at h
      split at h
      · exact Except.noConfusion h
      · rename_i r1 ch1 s1 heq1
        obtain ⟨hr1, hch1⟩ := ih a s r1 ch1 s1 hnf heq1
        subst hr1 hch1
        rw [if_neg Bool.false_ne_true] at h
        simp only [Except.ok.injEq, Prod.mk.injEq] at h
        exact ⟨h.1.symm, h.2.1.symm⟩
    case UpdateExpression op a pre =>
      simp only [noFree] at hnf
      simp only [walkStep] at h
      unfold walk1 at h
      split at h
      · exact Except.noConfusion h
      · rename_i r1 ch1 s1 heq1
        obtain ⟨hr1, hch1⟩ := ih a s r1 ch1 s1 hnf heq1
        subst hr1 hch1
        rw [if_neg Bool.false_ne_true] at h
        simp only [Except.ok.injEq, Prod.mk.injEq] at h
        exact ⟨h.1.symm, h.2.1.symm⟩
    case SpreadElement a =>
      simp only [noFree] at hnf
      simp only [walkStep] at h
      unfold walk1 at h
      split at h
      · exact Except.noConfusion h
      · rename_i r1 ch1 s1 heq1
        obtain ⟨hr1, hch1⟩ := ih a s r1 ch1 s1 hnf heq1
        subst hr1 hch1
        rw [if_neg Bool.false_ne_true] at h
        simp only [Except.ok.injEq, Prod.mk.injEq] at h
        exact ⟨h.1.symm, h.2.1.symm⟩
    case RestElement a =>
      simp only [noFree] at hnf
      simp only [walkStep] at h
      unfold walk1 at h
      split at h
      · exact Except.noConfusion h
      · rename_i r1 ch1 s1 heq1
        obtain ⟨hr1, hch1⟩ := ih a s r1 ch1 s1 hnf heq1
        subst hr1 hch1
        rw [if_neg Bool.false_ne_true] at h
        simp only [Except.ok.injEq, Prod.mk.injEq] at h
        exact ⟨h.1.symm, h.2.1.symm⟩
    case AwaitExpression a =>
      simp only [noFree] at hnf
      simp only [walkStep] at h
      unfold walk1 at h
      split at h
      · exact Except.noConfusion h
      · rename_i r1 ch1 s1 heq1
        obtain ⟨hr1, hch1⟩ := ih a s r1 ch1 s1 hnf heq1
        subst hr1 hch1
        rw [if_neg Bool.false_ne_true] at h
        simp only [Except.ok.injEq, Prod.mk.injEq] at h
        exact ⟨h.1.symm, h.2.1.symm⟩
    case ImportExpression a =>
      simp only [noFree] at hnf
      simp only [walkStep] at h
      unfold walk1 at h
      split at h
      · exact Except.noConfusion h
      · rename_i r1 ch1 s1 heq1
        obtain ⟨hr1, hch1⟩ := ih a s r1 ch1 s1 hnf heq1
        subst hr1 hch1
        rw [if_neg Bool.false_ne_true] at h
        simp only [Except.ok.injEq, Prod.mk.injEq] at h
        exact ⟨h.1.symm, h.2.1.symm⟩
    case LogicalExpression op l r2 =>
      simp only [noFree] at hnf
      rw [Bool.and_eq_true] at hnf
      obtain ⟨h1, h2⟩ := hnf
      simp only [walkStep] at h
      unfold walk2 at h
      split at h
      · exact Except.noConfusion h
      · rename_i r1 ch1 s1 heq1
        split at h
        · exact Except.noConfusion h
        · rename_i rr2 ch2 s2 heq2
          have hs1 : s1 = s := walk_scope cfg g f l s r1 ch1 s1 heq1
          obtain ⟨hr1, hch1⟩ := ih l s r1 ch1 s1 h1 heq1
          rw [hs1] at heq2
          obtain ⟨hr2, hch2⟩ := ih r2 s rr2 ch2 s2 h2 heq2
          subst hr1 hch1 hr2 hch2
          simp only [Bool.or_self, if_neg Bool.false_ne_true,
            Except.ok.injEq, Prod.mk.injEq] at h
          exact ⟨h.1.symm, h.2.1.symm⟩
    case BinaryExpression op l r2 =>
      simp only [noFree] at hnf
      rw [Bool.and_eq_true] at hnf
      obtain ⟨h1, h2⟩ := hnf
      simp only [walkStep] at h
      unfold walk2 at h
      split at h
      · exact Except.noConfusion h
      · rename_i r1 ch1 s1 heq1
        split at h
        · exact Except.noConfusion h
        · rename_i rr2 ch2 s2 heq2
          have hs1 : s1 = s := walk_scope cfg g f l s r1 ch1 s1 heq1
          obtain ⟨hr1, hch1⟩ := ih l s r1 ch1 s1 h1 heq1
          rw [hs1] at heq2
          obtain ⟨hr2, hch2⟩ := ih r2 s rr2 ch2 s2 h2 heq2
          subst hr1 hch1 hr2 hch2
          simp only [Bool.or_self, if_neg Bool.false_ne_true,
            Except.ok.injEq, Prod.mk.injEq] at h
          exact ⟨h.1.symm, h.2.1.symm⟩
    case AssignmentExpression op l r2 =>
      simp only [noFree] at hnf
      rw [Bool.and_eq_true] at hnf
      obtain ⟨h1, h2⟩ := hnf
      simp only [walkStep] at h
      unfold walk2 at h
      split at h
      · exact Except.noConfusion h
      · rename_i r1 ch1 s1 heq1
        split at h
        · exact Except.noConfusion h
        · rename_i rr2 ch2 s2 heq2
          have hs1 : s1 = s := walk_scope cfg g f l s r1 ch1 s1 heq1
          obtain ⟨hr1, hch1⟩ := ih l s r1 ch1 s1 h1 heq1
          rw [hs1] at heq2
          obtain ⟨hr2, hch2⟩ := ih r2 s rr2 ch2 s2 h2 heq2
          subst hr1 hch1 hr2 hch2
          simp only [Bool.or_self, if_neg Bool.false_ne_true,
            Except.ok.injEq, Prod.mk.injEq] at h
          exact ⟨h.1.symm, h.2.1.symm⟩
    case AssignmentPattern l r2 =>
      simp only [noFree] at hnf
      rw [Bool.and_eq_true] at hnf
      obtain ⟨h1, h2⟩ := hnf
      simp only [walkStep] at h
      unfold walk2 at h
      split at h
      · exact Except.noConfusion h
      · rename_i r1 ch1 s1 heq1
        split at h
        · exact Except.noConfusion h
        · rename_i rr2 ch2 s2 heq2
          have hs1 : s1 = s := walk_scope cfg g f l s r1 ch1 s1 heq1
          obtain ⟨hr1, hch1⟩ := ih l s r1 ch1 s1 h1 heq1
          rw [hs1] at heq2
          obtain ⟨hr2, hch2⟩ := ih r2 s rr2 ch2 s2 h2 heq2
          subst hr1 hch1 hr2 hch2
          simp only [Bool.or_self, if_neg Bool.false_ne_true,
            Except.ok.injEq, Prod.mk.injEq] at h
          exact ⟨h.1.symm, h.2.1.symm⟩
    case TaggedTemplateExpression t q =>
      simp only [noFree] at hnf
      rw [Bool.and_eq_true] at hnf
      obtain ⟨h1, h2⟩ := hnf
      simp only [walkStep] at h
      unfold walk2 at h
      split at h
      · exact Except.noConfusion h
      · rename_i r1 ch1 s1 heq1
        split at h
        · exact Except.noConfusion h
        · rename_i rr2 ch2 s2 heq2
          have hs1 : s1 = s := walk_scope cfg g f t s r1 ch1 s1 heq1
          obtain ⟨hr1, hch1⟩ := ih t s r1 ch1 s1 h1 heq1
          rw [hs1] at heq2
          obtain ⟨hr2, hch2⟩ := ih q s rr2 ch2 s2 h2 heq2
          subst hr1 hch1 hr2 hch2
          simp only [Bool.or_self, if_neg Bool.false_ne_true,
            Except.ok.injEq, Prod.mk.injEq] at h
          exact ⟨h.1.symm, h.2.1.symm⟩
    case ConditionalExpression a b c =>
      simp only [noFree] at hnf
      simp only [Bool.and_eq_true] at hnf
      obtain ⟨⟨h1, h2⟩, h3⟩ := hnf
      simp only [walkStep] at h
      unfold walk3 at h
      split at h
      · exact Except.noConfusion h
      · rename_i r1 ch1 s1 heq1
        split at h
        · exact Except.noConfusion h
        · rename_i rr2 ch2 s2 heq2
          split at h
          · exact Except.noConfusion h
          · rename_i rr3 ch3 s3 heq3
            have hs1 : s1 = s := walk_scope cfg g f a s r1 ch1 s1 heq1
            obtain ⟨hr1, hch1⟩ := ih a s r1 ch1 s1 h1 heq1
            rw [hs1] at heq2
            have hs2 : s2 = s := walk_scope cfg g f b s rr2 ch2 s2 heq2
            obtain ⟨hr2, hch2⟩ := ih b s rr2 ch2 s2 h2 heq2
            rw [hs2] at heq3
            obtain ⟨hr3, hch3⟩ := ih c s rr3 ch3 s3 h3 heq3
            subst hr1 hch1 hr2 hch2 hr3 hch3
            simp only [Bool.or_self, if_neg Bool.false_ne_true,
              Except.ok.injEq, Prod.mk.injEq] at h
            exact ⟨h.1.symm, h.2.1.symm⟩
    case TemplateLiteral qs es =>
      simp only [noFree] at hnf
      rw [Bool.and_eq_true] at hnf
      obtain ⟨h1, h2⟩ := hnf
      have hall1 := List.all_eq_true.mp h1
      have hall2 := List.all_eq_true.mp h2
      simp only [walkStep] at h
      unfold walkLL at h
      split at h
      · exact Except.noConfusion h
      · rename_i r1 ch1 s1 heq1
        split at h
        · exact Except.noConfusion h
        · rename_i r2 ch2 s2 heq2
          have hs1 : s1 = s := walkList_scope (walk_scope cfg g f) qs s r1 ch1 s1 heq1
          obtain ⟨hr1, hch1⟩ := walkList_clean qs s r1 ch1 s1 hall1 ih heq1
          rw [hs1] at heq2
          obtain ⟨hr2, hch2⟩ := walkList_clean es s r2 ch2 s2 hall2 ih heq2
          subst hr1 hch1 hr2 hch2
          simp only [Bool.or_self, if_neg Bool.false_ne_true,
            Except.ok.injEq, Prod.mk.injEq] at h
          exact ⟨h.1.symm, h.2.1.symm⟩
    case NewExpression c as =>
      simp only [noFree] at hnf
      rw [Bool.and_eq_true] at hnf
      obtain ⟨h1, h2⟩ := hnf
      have hall := List.all_eq_true.mp h2
      simp only [walkStep] at h
      unfold walk1L at h
      split at h
      · exact Except.noConfusion h
      · rename_i r1 ch1 s1 heq1
        split at h
        · exact Except.noConfusion h
        · rename_i rs chs s2 heq2
          have hs1 : s1 = s := walk_scope cfg g f c s r1 ch1 s1 heq1
          obtain ⟨hr1, hch1⟩ := ih c s r1 ch1 s1 h1 heq1
          rw [hs1] at heq2
          obtain ⟨hrs, hchs⟩ := walkList_clean as s rs chs s2 hall ih heq2
          subst hr1 hch1 hrs hchs
          simp only [Bool.or_self, if_neg Bool.false_ne_true,
            Except.ok.injEq, Prod.mk.injEq] at h
          exact ⟨h.1.symm, h.2.1.symm⟩
    case CallExpression c as opt =>
      simp only [noFree] at hnf
      rw [Bool.and_eq_true] at hnf
      obtain ⟨h1, h2⟩ := hnf
      have hall := List.all_eq_true.mp h2
      simp only [walkStep] at h
      unfold walk1L at h
      split at h
      · exact Except.noConfusion h
      · rename_i r1 ch1 s1 heq1
        split at h
        · exact Except.noConfusion h
        · rename_i rs chs s2 heq2
          have hs1 : s1 = s := walk_scope cfg g f c s r1 ch1 s1 heq1
          obtain ⟨hr1, hch1⟩ := ih c s r1 ch1 s1 h1 heq1
          rw [hs1] at heq2
          obtain ⟨hrs, hchs⟩ := walkList_clean as s rs chs s2 hall ih heq2
          subst hr1 hch1 hrs hchs
          simp only [Bool.or_self, if_neg Bool.false_ne_true,
            Except.ok.injEq, Prod.mk.injEq] at h
          exact ⟨h.1.symm, h.2.1.symm⟩
    all_goals
      (simp only [walkStep, Except.ok.injEq, Prod.mk.injEq] at h;
       exact ⟨h.1.symm, h.2.1.symm⟩)


/-- `GlobalOk` survives extending the scope. -/
lemma GlobalOk_append {g : Option String} {cfg : Enables} {s ns : List String}
    (h : GlobalOk g cfg s) : GlobalOk g cfg (s ++ ns) := by
  cases g with
  | none => trivial
  | some gl =>
    simp only [GlobalOk] at h ⊢
    by_cases hgl : gl = "this"
    · rw [if_pos hgl] at h ⊢
      exact h
    · rw [if_neg hgl] at h ⊢
      exact List.mem_append_left _ h

/-- Building a successful visit from an admitted entry and a dispatch result. -/
lemma walk_succ_intro {cfg : Enables} {g : Option String} {k : Nat} {n : Node}
    {s : List String} {x : Res} (he : enter cfg n = .ok ())
    (hs : walkStep (walk cfg g k) k g n s = x) : walk cfg g (k + 1) n s = x := by
  simp only [walk, he]
  exact hs

/-- A list traversal reporting no change returns the original list. -/
lemma walkList_false_id {cfg : Enables} {g : Option String} {f : Nat} :
    ∀ (l : List Node) (s : List String) (rs : List Node) (s' : List String),
      walkList (walk cfg g f) l s = .ok (rs, false, s') → rs = l := by
  intro l
  induction l with
  | nil =>
    intro s rs s' h
    simp only [walkList, Except.ok.injEq, Prod.mk.injEq] at h
    exact h.1.symm
  | cons c cs ihl =>
    intro s rs s' h
    simp only [walkList] at h
    split at h
    · exact Except.noConfusion h
    · rename_i r1 ch1 s1 heq1
      split at h
      · exact Except.noConfusion h
      · rename_i rs2 chs s2 heq2
        simp only [Except.ok.injEq, Prod.mk.injEq] at h
        obtain ⟨h1, h2, h3⟩ := h
        have hflags : ch1 = false ∧ chs = false := by
          cases ch1 <;> cases chs <;> simp_all
        rw [hflags.1] at heq1
        rw [hflags.2] at heq2
        rw [← h1, walk_false_id heq1, ihl _ _ _ heq2]
    
/-- A holes-list traversal reporting no change returns the original list. -/
lemma walkOpts_false_id {cfg : Enables} {g : Option String} {f : Nat} :
    ∀ (l : List (Option Node)) (s : List String) (rs : List (Option Node))
      (s' : List String),
      walkOpts (walk cfg g f) l s = .ok (rs, false, s') → rs = l := by
  intro l
  induction l with
  | nil =>
    intro s rs s' h
    simp only [walkOpts, Except.ok.injEq, Prod.mk.injEq] at h
    exact h.1.symm
  | cons o cs ihl =>
    intro s rs s' h
    cases o with
    | none =>
      simp only [walkOpts] at h
      split at h
      · exact Except.noConfusion h
      · rename_i rs2 chs s2 heq2
        simp only [Except.ok.injEq, Prod.mk.injEq] at h
        obtain ⟨h1, h2, h3⟩ := h
        rw [h2] at heq2
        rw [← h1, ihl _ _ _ heq2]
    | some c =>
      simp only [walkOpts] at h
      split at h
      · exact Except.noConfusion h
      · rename_i r1 ch1 s1 heq1
        split at h
        · exact Except.noConfusion h
        · rename_i rs2 chs s2 heq2
          simp only [Except.ok.injEq, Prod.mk.injEq] at h
          obtain ⟨h1, h2, h3⟩ := h
          have hflags : ch1 = false ∧ chs = false := by
            cases ch1 <;> cases chs <;> simp_all
          rw [hflags.1] at heq1
          rw [hflags.2] at heq2
          rw [← h1, walk_false_id heq1, ihl _ _ _ heq2]

/-- Every member of a successful list traversal's output is a fixed point of
the walker given enough fuel. -/
lemma walkList_fix {cfg : Enables} {g : Option String} {f : Nat}
    (IH : ∀ (n : Node) (s : List String) (r : Node) (ch : Bool) (s' : List String),
      GlobalOk g cfg s → walk cfg g f n s = .ok (r, ch, s') →
      ∀ k, nodeSize r < k → walk cfg g k r s = .ok (r, false, s)) :
    ∀ (l : List Node) (s : List String) (rs : List Node) (ch : Bool)
      (s' : List String),
      GlobalOk g cfg s → walkList (walk cfg g f) l s = .ok (rs, ch, s') →
      ∀ (k : Nat) (x : Node), x ∈ rs → nodeSize x < k →
        walk cfg g k x s = .ok (x, false, s) := by
  intro l
  induction l with
  | nil =>
    intro s rs ch s' _ h k x hx _
    simp only [walkList, Except.ok.injEq, Prod.mk.injEq] at h
    rw [← h.1] at hx
    cases hx
  | cons c cs ihl =>
    intro s rs ch s' hGok h k x hx hxk
    simp only [walkList] at h
    split at h
    · exact Except.noConfusion h
    · rename_i r1 ch1 s1 heq1
      split at h
      · exact Except.noConfusion h
      · rename_i rs2 chs s2 heq2
        have hs1 : s1 = s := walk_scope cfg g f c s r1 ch1 s1 heq1
        rw [hs1] at heq2
        simp only [Except.ok.injEq, Prod.mk.injEq] at h
        obtain ⟨h1, h2, h3⟩ := h
        rw [← h1] at hx
        rcases List.mem_cons.mp hx with hx1 | hx2
        · subst hx1
          exact IH c s x ch1 s1 hGok heq1 k hxk
        · exact ihl s rs2 chs s2 hGok heq2 k x hx2 hxk

/-- Every present member of a successful holes-list traversal's output is a
fixed point of the walker given enough fuel. -/
lemma walkOpts_fix {cfg : Enables} {g : Option String} {f : Nat}
    (IH : ∀ (n : Node) (s : List String) (r : Node) (ch : Bool) (s' : List String),
      GlobalOk g cfg s → walk cfg g f n s = .ok (r, ch, s') →
      ∀ k, nodeSize r < k → walk cfg g k r s = .ok (r, false, s)) :
    ∀ (l : List (Option Node)) (s : List String) (rs : List (Option Node))
      (ch : Bool) (s' : List String),
      GlobalOk g cfg s → walkOpts (walk cfg g f) l s = .ok (rs, ch, s') →
      ∀ (k : Nat) (x : Node), some x ∈ rs → nodeSize x < k →
        walk cfg g k x s = .ok (x, false, s) := by
  intro l
  induction l with
  | nil =>
    intro s rs ch s' _ h k x hx _
    simp only [walkOpts, Except.ok.injEq, Prod.mk.injEq] at h
    rw [← h.1] at hx
    cases hx
  | cons o cs ihl =>
    intro s rs ch s' hGok h k x hx hxk
    cases o with
    | none =>
      simp only [walkOpts] at h
      split at h
      · exact Except.noConfusion h
      · rename_i rs2 chs s2 heq2
        simp only [Except.ok.injEq, Prod.mk.injEq] at h
        obtain ⟨h1, h2, h3⟩ := h
        rw [← h1] at hx
        rcases List.mem_cons.mp hx with hx1 | hx2
        · exact Option.noConfusion hx1
        · exact ihl s rs2 chs s2 hGok heq2 k x hx2 hxk
    | some c =>
      simp only [walkOpts] at h
      split at h
      · exact Except.noConfusion h
      · rename_i r1 ch1 s1 heq1
        split at h
        · exact Except.noConfusion h
        · rename_i rs2 chs s2 heq2
          have hs1 : s1 = s := walk_scope cfg g f c s r1 ch1 s1 heq1
          rw [hs1] at heq2
          simp only [Except.ok.injEq, Prod.mk.injEq] at h
          obtain ⟨h1, h2, h3⟩ := h
          rw [← h1] at hx
          rcases List.mem_cons.mp hx with hx1 | hx2
          · have hx1' : x = r1 := Option.some.inj hx1
            subst hx1'
            exact IH c s x ch1 s1 hGok heq1 k hxk
          · exact ihl s rs2 chs s2 hGok heq2 k x hx2 hxk

/-- Revisiting a rebuilt (or reused) one-child node whose child is a fixed
point returns it unchanged. -/
lemma step1_fix (rb : Node → Node) {cfg : Enables} {g : Option String} {k' : Nat}
    {c : Node} {s : List String}
    (hen : enter cfg (rb c) = .ok ())
    (hstep : walkStep (walk cfg g k') k' g (rb c) s = walk1 (walk cfg g k') rb (rb c) c s)
    (hc : walk cfg g k' c s = .ok (c, false, s)) :
    walk cfg g (k' + 1) (rb c) s = .ok (rb c, false, s) :=
  walk_succ_intro hen (by rw [hstep]; simp [walk1, hc])

/-- Revisiting a two-child node whose children are fixed points returns it
unchanged. -/
lemma step2_fix (rb : Node → Node → Node) {cfg : Enables} {g : Option String}
    {k' : Nat} {c1 c2 : Node} {s : List String}
    (hen : enter cfg (rb c1 c2) = .ok ())
    (hstep : walkStep (walk cfg g k') k' g (rb c1 c2) s
      = walk2 (walk cfg g k') rb (rb c1 c2) c1 c2 s)
    (hc1 : walk cfg g k' c1 s = .ok (c1, false, s))
    (hc2 : walk cfg g k' c2 s = .ok (c2, false, s)) :
    walk cfg g (k' + 1) (rb c1 c2) s = .ok (rb c1 c2, false, s) :=
  walk_succ_intro hen (by rw [hstep]; simp [walk2, hc1, hc2])

/-- Revisiting a three-child node whose children are fixed points returns it
unchanged. -/
lemma step3_fix (rb : Node → Node → Node → Node) {cfg : Enables} {g : Option String}
    {k' : Nat} {c1 c2 c3 : Node} {s : List String}
    (hen : enter cfg (rb c1 c2 c3) = .ok ())
    (hstep : walkStep (walk cfg g k') k' g (rb c1 c2 c3) s
      = walk3 (walk cfg g k') rb (rb c1 c2 c3) c1 c2 c3 s)
    (hc1 : walk cfg g k' c1 s = .ok (c1, false, s))
    (hc2 : walk cfg g k' c2 s = .ok (c2, false, s))
    (hc3 : walk cfg g k' c3 s = .ok (c3, false, s)) :
    walk cfg g (k' + 1) (rb c1 c2 c3) s = .ok (rb c1 c2 c3, false, s) :=
  walk_succ_intro hen (by rw [hstep]; simp [walk3, hc1, hc2, hc3])

/-- Revisiting a list node whose member list is a fixed point returns it
unchanged. -/
lemma stepL_fix (rb : List Node → Node) {cfg : Enables} {g : Option String}
    {k' : Nat} {l : List Node} {s : List String}
    (hen : enter cfg (rb l) = .ok ())
    (hstep : walkStep (walk cfg g k') k' g (rb l) s
      = walkL (walk cfg g k') rb (rb l) l s)
    (hl : walkList (walk cfg g k') l s = .ok (l, false, s)) :
    walk cfg g (k' + 1) (rb l) s = .ok (rb l, false, s) :=
  walk_succ_intro hen (by rw [hstep]; simp [walkL, hl])

/-- Revisiting a holes-list node whose member list is a fixed point returns
it unchanged. -/
lemma stepO_fix (rb : List (Option Node) → Node) {cfg : Enables} {g : Option String}
    {k' : Nat} {l : List (Option Node)} {s : List String}
    (hen : enter cfg (rb l) = .ok ())
    (hstep : walkStep (walk cfg g k') k' g (rb l) s
      = walkO (walk cfg g k') rb (rb l) l s)
    (hl : walkOpts (walk cfg g k') l s = .ok (l, false, s)) :
    walk cfg g (k' + 1) (rb l) s = .ok (rb l, false, s) :=
  walk_succ_intro hen (by rw [hstep]; simp [walkO, hl])

/-- Revisiting a two-list node whose member lists are fixed points returns
it unchanged. -/
lemma stepLL_fix (rb : List Node → List Node → Node) {cfg : Enables}
    {g : Option String} {k' : Nat} {l1 l2 : List Node} {s : List String}
    (hen : enter cfg (rb l1 l2) = .ok ())
    (hstep : walkStep (walk cfg g k') k' g (rb l1 l2) s
      = walkLL (walk cfg g k') rb (rb l1 l2) l1 l2 s)
    (hl1 : walkList (walk cfg g k') l1 s = .ok (l1, false, s))
    (hl2 : walkList (walk cfg g k') l2 s = .ok (l2, false, s)) :
    walk cfg g (k' + 1) (rb l1 l2) s = .ok (rb l1 l2, false, s) :=
  walk_succ_intro hen (by rw [hstep]; simp [walkLL, hl1, hl2])

/-- Revisiting a child-and-list node whose components are fixed points
returns it unchanged. -/
lemma step1L_fix (rb : Node → List Node → Node) {cfg : Enables}
    {g : Option String} {k' : Nat} {c : Node} {l : List Node} {s : List String}
    (hen : enter cfg (rb c l) = .ok ())
    (hstep : walkStep (walk cfg g k') k' g (rb c l) s
      = walk1L (walk cfg g k') rb (rb c l) c l s)
    (hc : walk cfg g k' c s = .ok (c, false, s))
    (hl : walkList (walk cfg g k') l s = .ok (l, false, s)) :
    walk cfg g (k' + 1) (rb c l) s = .ok (rb c l, false, s) :=
  walk_succ_intro hen (by rw [hstep]; simp [walk1L, hc, hl])

/-- Revisiting a property access whose components are fixed points returns
it unchanged. -/
lemma member_fix {cfg : Enables} {g : Option String} {k' : Nat} {ro rp : Node}
    {comp opt : Bool} {s : List String}
    (hsup : isSuper ro = false) (hprv : isPrivate rp = false)
    (hro : walk cfg g k' ro s = .ok (ro, false, s))
    (hrp : comp = true → walk cfg g k' rp s = .ok (rp, false, s)) :
    walk cfg g (k' + 1) (.MemberExpression ro rp comp opt) s
      = .ok (.MemberExpression ro rp comp opt, false, s) := by
  refine walk_succ_intro rfl ?_
  by_cases hc : comp = true
  · simp [walkStep, hsup, hprv, hro, hc, hrp hc]
  · have hcf : comp = false := by
      cases comp
      · rfl
      · exact absurd rfl hc
    simp [walkStep, hsup, hprv, hro, hcf]

/-- Revisiting an object-entry node whose components are fixed points
returns it unchanged. -/
lemma property_fix {cfg : Enables} {g : Option String} {k' : Nat} {rk rv : Node}
    {comp sh : Bool} {kind : String} {s : List String}
    (hprv : isPrivate rk = false)
    (hrk : comp = true → walk cfg g k' rk s = .ok (rk, false, s))
    (hrv : walk cfg g k' rv s = .ok (rv, false, s)) :
    walk cfg g (k' + 1) (.Property rk rv comp sh kind) s
      = .ok (.Property rk rv comp sh kind, false, s) := by
  refine walk_succ_intro rfl ?_
  by_cases hc : comp = true
  · simp [walkStep, hprv, hrv, hc, hrk hc]
  · have hcf : comp = false := by
      cases comp
      · rfl
      · exact absurd rfl hc
    simp [walkStep, hprv, hrv, hcf]

/-- Revisiting an arrow function whose body is a fixed point under the
rescanned scope returns it unchanged. -/
lemma arrow_fix {cfg : Enables} {g : Option String} {k' : Nat} {ps : List Node}
    {b : Node} {async : Bool} {s s1 : List String}
    (hen : enter cfg (.ArrowFunctionExpression ps b async) = .ok ())
    (hblk : isBlock b = false)
    (hext : extractParams k' ps s = .ok s1)
    (hb : walk cfg g k' b s1 = .ok (b, false, s1))
    (htake : s1.take s.length = s) :
    walk cfg g (k' + 1) (.ArrowFunctionExpression ps b async) s
      = .ok (.ArrowFunctionExpression ps b async, false, s) := by
  apply walk_succ_intro hen
  simp [walkStep, hblk, hext, hb, htake]

/-- Outputs of the walker are fixed points: revisiting a produced subtree
from the same scope, with fuel above its size, succeeds and returns it
unchanged with the change flag `false` — provided the rewritten free
identifiers stay resolvable (`GlobalOk`). -/
theorem walk_fix (cfg : Enables) (g : Option String) :
    ∀ (f : Nat) (n : Node) (s : List String) (r : Node) (ch : Bool)
      (s' : List String),
      GlobalOk g cfg s → walk cfg g f n s = .ok (r, ch, s') →
      ∀ k, nodeSize r < k → walk cfg g k r s = .ok (r, false, s) := by
  intro f
  induction f with
  | zero => intro n s r ch s' _ h; exact Except.noConfusion h
  | succ f ih =>
    intro n s r ch s' hGok h
    have hsk := walk_succ_ok h
    clear h
    obtain ⟨hen, h⟩ := hsk
    intro k hk
    obtain ⟨k', rfl⟩ : ∃ k2, k = k2 + 1 := ⟨k - 1, by omega⟩
    cases n
    case Literal raw =>
      simp only [walkStep, Except.ok.injEq, Prod.mk.injEq] at h
      obtain ⟨h1, h2, h3⟩ := h
      subst h1
      exact walk_succ_intro hen rfl
    case TemplateElement raw tl =>
      simp only [walkStep, Except.ok.injEq, Prod.mk.injEq] at h
      obtain ⟨h1, h2, h3⟩ := h
      subst h1
      exact walk_succ_intro hen rfl
    case ThisExpression =>
      simp only [walkStep, Except.ok.injEq, Prod.mk.injEq] at h
      obtain ⟨h1, h2, h3⟩ := h
      subst h1
      exact walk_succ_intro hen rfl
    case FunctionExpression =>
      simp [enter, test] at hen
    case ClassExpression =>
      simp [enter, test] at hen
    case MetaProperty =>
      simp [enter, test] at hen
    case YieldExpression =>
      simp [enter, test] at hen
    case AwaitExpression a =>
      simp [enter, test] at hen
    case ImportExpression a =>
      simp [enter, test] at hen
    case BlockStatement =>
      simp [enter, test] at hen
    case Super =>
      simp [enter, test] at hen
    case PrivateIdentifier nm =>
      simp [enter, test] at hen
    case OtherNode t2 =>
      simp [enter, test] at hen
    case ChainExpression e1 =>
      simp only [walkStep] at h
      unfold walk1 at h
      split at h
      · exact Except.noConfusion h
      · rename_i rr1 cch1 ss1 heq1
        have hs1 : ss1 = s := walk_scope cfg g f e1 s rr1 cch1 ss1 heq1
        rw [hs1] at heq1
        split at h
        · simp only [Except.ok.injEq, Prod.mk.injEq] at h
          obtain ⟨h1, h2, h3⟩ := h
          subst h1
          have esz : nodeSize (Node.ChainExpression rr1) = 1 + nodeSize rr1 := by
            simp [nodeSize]
          have hsz : nodeSize rr1 < k' := by omega
          have hc := ih e1 s rr1 cch1 s hGok heq1 k' hsz
          refine step1_fix Node.ChainExpression ?_ ?_ hc
          · exact hen
          · rfl
        · rename_i hchn
          have hch : cch1 = false := by
            cases cch1
            · rfl
            · exact absurd rfl hchn
          rw [hch] at heq1
          rw [walk_false_id heq1] at heq1
          simp only [Except.ok.injEq, Prod.mk.injEq] at h
          obtain ⟨h1, h2, h3⟩ := h
          subst h1
          have esz : nodeSize (Node.ChainExpression e1) = 1 + nodeSize e1 := by
            simp [nodeSize]
          have hsz : nodeSize e1 < k' := by omega
          have hc := ih e1 s e1 false s hGok heq1 k' hsz
          refine step1_fix Node.ChainExpression ?_ ?_ hc
          · exact hen
          · rfl
    case UnaryExpression op a =>
      simp only [walkStep] at h
      unfold walk1 at h
      split at h
      · exact Except.noConfusion h
      · rename_i rr1 cch1 ss1 heq1
        have hs1 : ss1 = s := walk_scope cfg g f a s rr1 cch1 ss1 heq1
        rw [hs1] at heq1
        split at h
        · simp only [Except.ok.injEq, Prod.mk.injEq] at h
          obtain ⟨h1, h2, h3⟩ := h
          subst h1
          have esz : nodeSize (Node.UnaryExpression op rr1) = 1 + nodeSize rr1 := by
            simp [nodeSize]
          have hsz : nodeSize rr1 < k' := by omega
          have hc := ih a s rr1 cch1 s hGok heq1 k' hsz
          refine step1_fix (fun x => Node.UnaryExpression op x) ?_ ?_ hc
          · exact hen
          · rfl
        · rename_i hchn
          have hch : cch1 = false := by
            cases cch1
            · rfl
            · exact absurd rfl hchn
          rw [hch] at heq1
          rw [walk_false_id heq1] at heq1
          simp only [Except.ok.injEq, Prod.mk.injEq] at h
          obtain ⟨h1, h2, h3⟩ := h
          subst h1
          have esz : nodeSize (Node.UnaryExpression op a) = 1 + nodeSize a := by
            simp [nodeSize]
          have hsz : nodeSize a < k' := by omega
          have hc := ih a s a false s hGok heq1 k' hsz
          refine step1_fix (fun x => Node.UnaryExpression op x) ?_ ?_ hc
          · exact hen
          · rfl
    case UpdateExpression op a pre =>
      simp only [walkStep] at h
      unfold walk1 at h
      split at h
      · exact Except.noConfusion h
      · rename_i rr1 cch1 ss1 heq1
        have hs1 : ss1 = s := walk_scope cfg g f a s rr1 cch1 ss1 heq1
        rw [hs1] at heq1
        split at h
        · simp only [Except.ok.injEq, Prod.mk.injEq] at h
          obtain ⟨h1, h2, h3⟩ := h
          subst h1
          have esz : nodeSize (Node.UpdateExpression op rr1 pre) = 1 + nodeSize rr1 := by
            simp [nodeSize]
          have hsz : nodeSize rr1 < k' := by omega
          have hc := ih a s rr1 cch1 s hGok heq1 k' hsz
          refine step1_fix (fun x => Node.UpdateExpression op x pre) ?_ ?_ hc
          · exact hen
          · rfl
        · rename_i hchn
          have hch : cch1 = false := by
            cases cch1
            · rfl
            · exact absurd rfl hchn
          rw [hch] at heq1
          rw [walk_false_id heq1] at heq1
          simp only [Except.ok.injEq, Prod.mk.injEq] at h
          obtain ⟨h1, h2, h3⟩ := h
          subst h1
          have esz : nodeSize (Node.UpdateExpression op a pre) = 1 + nodeSize a := by
            simp [nodeSize]
          have hsz : nodeSize a < k' := by omega
          have hc := ih a s a false s hGok heq1 k' hsz
          refine step1_fix (fun x => Node.UpdateExpression op x pre) ?_ ?_ hc
          · exact hen
          · rfl
    case SpreadElement a =>
      simp only [walkStep] at h
      unfold walk1 at h
      split at h
      · exact Except.noConfusion h
      · rename_i rr1 cch1 ss1 heq1
        have hs1 : ss1 = s := walk_scope cfg g f a s rr1 cch1 ss1 heq1
        rw [hs1] at heq1
        split at h
        · simp only [Except.ok.injEq, Prod.mk.injEq] at h
          obtain ⟨h1, h2, h3⟩ := h
          subst h1
          have esz : nodeSize (Node.SpreadElement rr1) = 1 + nodeSize rr1 := by
            simp [nodeSize]
          have hsz : nodeSize rr1 < k' := by omega
          have hc := ih a s rr1 cch1 s hGok heq1 k' hsz
          refine step1_fix Node.SpreadElement ?_ ?_ hc
          · exact hen
          · rfl
        · rename_i hchn
          have hch : cch1 = false := by
            cases cch1
            · rfl
            · exact absurd rfl hchn
          rw [hch] at heq1
          rw [walk_false_id heq1] at heq1
          simp only [Except.ok.injEq, Prod.mk.injEq] at h
          obtain ⟨h1, h2, h3⟩ := h
          subst h1
          have esz : nodeSize (Node.SpreadElement a) = 1 + nodeSize a := by
            simp [nodeSize]
          have hsz : nodeSize a < k' := by omega
          have hc := ih a s a false s hGok heq1 k' hsz
          refine step1_fix Node.SpreadElement ?_ ?_ hc
          · exact hen
          · rfl
    case RestElement a =>
      simp only [walkStep] at h
      unfold walk1 at h
      split at h
      · exact Except.noConfusion h
      · rename_i rr1 cch1 ss1 heq1
        have hs1 : ss1 = s := walk_scope cfg g f a s rr1 cch1 ss1 heq1
        rw [hs1] at heq1
        split at h
        · simp only [Except.ok.injEq, Prod.mk.injEq] at h
          obtain ⟨h1, h2, h3⟩ := h
          subst h1
          have esz : nodeSize (Node.RestElement rr1) = 1 + nodeSize rr1 := by
            simp [nodeSize]
          have hsz : nodeSize rr1 < k' := by omega
          have hc := ih a s rr1 cch1 s hGok heq1 k' hsz
          refine step1_fix Node.RestElement ?_ ?_ hc
          · exact hen
          · rfl
        · rename_i hchn
          have hch : cch1 = false := by
            cases cch1
            · rfl
            · exact absurd rfl hchn
          rw [hch] at heq1
          rw [walk_false_id heq1] at heq1
          simp only [Except.ok.injEq, Prod.mk.injEq] at h
          obtain ⟨h1, h2, h3⟩ := h
          subst h1
          have esz : nodeSize (Node.RestElement a) = 1 + nodeSize a := by
            simp [nodeSize]
          have hsz : nodeSize a < k' := by omega
          have hc := ih a s a false s hGok heq1 k' hsz
          refine step1_fix Node.RestElement ?_ ?_ hc
          · exact hen
          · rfl
    case LogicalExpression op l r2 =>
      simp only [walkStep] at h
      unfold walk2 at h
      split at h
      · exact Except.noConfusion h
      · rename_i rr1 cch1 ss1 heq1
        have hs1 : ss1 = s := walk_scope cfg g f l s rr1 cch1 ss1 heq1
        rw [hs1] at heq1
        split at h
        · exact Except.noConfusion h
        · rename_i rr2 cch2 ss2 heq2
          rw [hs1] at heq2
          have hs2 : ss2 = s := walk_scope cfg g f r2 s rr2 cch2 ss2 heq2
          rw [hs2] at heq2
          split at h
          · simp only [Except.ok.injEq, Prod.mk.injEq] at h
            obtain ⟨h1, h2, h3⟩ := h
            subst h1
            have esz : nodeSize (Node.LogicalExpression op rr1 rr2)
                = 1 + nodeSize rr1 + nodeSize rr2 := by simp [nodeSize]
            have hsz1 : nodeSize rr1 < k' := by omega
            have hsz2 : nodeSize rr2 < k' := by omega
            have hc1 := ih l s rr1 cch1 s hGok heq1 k' hsz1
            have hc2 := ih r2 s rr2 cch2 s hGok heq2 k' hsz2
            refine step2_fix (Node.LogicalExpression op) ?_ ?_ hc1 hc2
            · exact hen
            · rfl
          · rename_i hchn
            have hflags : cch1 = false ∧ cch2 = false := by
              cases cch1 <;> cases cch2 <;> simp_all
            rw [hflags.1] at heq1
            rw [hflags.2] at heq2
            rw [walk_false_id heq1] at heq1
            rw [walk_false_id heq2] at heq2
            simp only [Except.ok.injEq, Prod.mk.injEq] at h
            obtain ⟨h1, h2, h3⟩ := h
            subst h1
            have esz : nodeSize (Node.LogicalExpression op l r2)
                = 1 + nodeSize l + nodeSize r2 := by simp [nodeSize]
            have hsz1 : nodeSize l < k' := by omega
            have hsz2 : nodeSize r2 < k' := by omega
            have hc1 := ih l s l false s hGok heq1 k' hsz1
            have hc2 := ih r2 s r2 false s hGok heq2 k' hsz2
            refine step2_fix (Node.LogicalExpression op) ?_ ?_ hc1 hc2
            · exact hen
            · rfl
    case BinaryExpression op l r2 =>
      simp only [walkStep] at h
      unfold walk2 at h
      split at h
      · exact Except.noConfusion h
      · rename_i rr1 cch1 ss1 heq1
        have hs1 : ss1 = s := walk_scope cfg g f l s rr1 cch1 ss1 heq1
        rw [hs1] at heq1
        split at h
        · exact Except.noConfusion h
        · rename_i rr2 cch2 ss2 heq2
          rw [hs1] at heq2
          have hs2 : ss2 = s := walk_scope cfg g f r2 s rr2 cch2 ss2 heq2
          rw [hs2] at heq2
          split at h
          · simp only [Except.ok.injEq, Prod.mk.injEq] at h
            obtain ⟨h1, h2, h3⟩ := h
            subst h1
            have esz : nodeSize (Node.BinaryExpression op rr1 rr2)
                = 1 + nodeSize rr1 + nodeSize rr2 := by simp [nodeSize]
            have hsz1 : nodeSize rr1 < k' := by omega
            have hsz2 : nodeSize rr2 < k' := by omega
            have hc1 := ih l s rr1 cch1 s hGok heq1 k' hsz1
            have hc2 := ih r2 s rr2 cch2 s hGok heq2 k' hsz2
            refine step2_fix (Node.BinaryExpression op) ?_ ?_ hc1 hc2
            · exact hen
            · rfl
          · rename_i hchn
            have hflags : cch1 = false ∧ cch2 = false := by
              cases cch1 <;> cases cch2 <;> simp_all
            rw [hflags.1] at heq1
            rw [hflags.2] at heq2
            rw [walk_false_id heq1] at heq1
            rw [walk_false_id heq2] at heq2
            simp only [Except.ok.injEq, Prod.mk.injEq] at h
            obtain ⟨h1, h2, h3⟩ := h
            subst h1
            have esz : nodeSize (Node.BinaryExpression op l r2)
                = 1 + nodeSize l + nodeSize r2 := by simp [nodeSize]
            have hsz1 : nodeSize l < k' := by omega
            have hsz2 : nodeSize r2 < k' := by omega
            have hc1 := ih l s l false s hGok heq1 k' hsz1
            have hc2 := ih r2 s r2 false s hGok heq2 k' hsz2
            refine step2_fix (Node.BinaryExpression op) ?_ ?_ hc1 hc2
            · exact hen
            · rfl
    case AssignmentExpression op l r2 =>
      simp only [walkStep] at h
      unfold walk2 at h
      split at h
      · exact Except.noConfusion h
      · rename_i rr1 cch1 ss1 heq1
        have hs1 : ss1 = s := walk_scope cfg g f l s rr1 cch1 ss1 heq1
        rw [hs1] at heq1
        split at h
        · exact Except.noConfusion h
        · rename_i rr2 cch2 ss2 heq2
          rw [hs1] at heq2
          have hs2 : ss2 = s := walk_scope cfg g f r2 s rr2 cch2 ss2 heq2
          rw [hs2] at heq2
          split at h
          · simp only [Except.ok.injEq, Prod.mk.injEq] at h
            obtain ⟨h1, h2, h3⟩ := h
            subst h1
            have esz : nodeSize (Node.AssignmentExpression op rr1 rr2)
                = 1 + nodeSize rr1 + nodeSize rr2 := by simp [nodeSize]
            have hsz1 : nodeSize rr1 < k' := by omega
            have hsz2 : nodeSize rr2 < k' := by omega
            have hc1 := ih l s rr1 cch1 s hGok heq1 k' hsz1
            have hc2 := ih r2 s rr2 cch2 s hGok heq2 k' hsz2
            refine step2_fix (Node.AssignmentExpression op) ?_ ?_ hc1 hc2
            · exact hen
            · rfl
          · rename_i hchn
            have hflags : cch1 = false ∧ cch2 = false := by
              cases cch1 <;> cases cch2 <;> simp_all
            rw [hflags.1] at heq1
            rw [hflags.2] at heq2
            rw [walk_false_id heq1] at heq1
            rw [walk_false_id heq2] at heq2
            simp only [Except.ok.injEq, Prod.mk.injEq] at h
            obtain ⟨h1, h2, h3⟩ := h
            subst h1
            have esz : nodeSize (Node.AssignmentExpression op l r2)
                = 1 + nodeSize l + nodeSize r2 := by simp [nodeSize]
            have hsz1 : nodeSize l < k' := by omega
            have hsz2 : nodeSize r2 < k' := by omega
            have hc1 := ih l s l false s hGok heq1 k' hsz1
            have hc2 := ih r2 s r2 false s hGok heq2 k' hsz2
            refine step2_fix (Node.AssignmentExpression op) ?_ ?_ hc1 hc2
            · exact hen
            · rfl
    case AssignmentPattern l r2 =>
      simp only [walkStep] at h
      unfold walk2 at h
      split at h
      · exact Except.noConfusion h
      · rename_i rr1 cch1 ss1 heq1
        have hs1 : ss1 = s := walk_scope cfg g f l s rr1 cch1 ss1 heq1
        rw [hs1] at heq1
        split at h
        · exact Except.noConfusion h
        · rename_i rr2 cch2 ss2 heq2
          rw [hs1] at heq2
          have hs2 : ss2 = s := walk_scope cfg g f r2 s rr2 cch2 ss2 heq2
          rw [hs2] at heq2
          split at h
          · simp only [Except.ok.injEq, Prod.mk.injEq] at h
            obtain ⟨h1, h2, h3⟩ := h
            subst h1
            have esz : nodeSize (Node.AssignmentPattern rr1 rr2)
                = 1 + nodeSize rr1 + nodeSize rr2 := by simp [nodeSize]
            have hsz1 : nodeSize rr1 < k' := by omega
            have hsz2 : nodeSize rr2 < k' := by omega
            have hc1 := ih l s rr1 cch1 s hGok heq1 k' hsz1
            have hc2 := ih r2 s rr2 cch2 s hGok heq2 k' hsz2
            refine step2_fix Node.AssignmentPattern ?_ ?_ hc1 hc2
            · exact hen
            · rfl
          · rename_i hchn
            have hflags : cch1 = false ∧ cch2 = false := by
              cases cch1 <;> cases cch2 <;> simp_all
            rw [hflags.1] at heq1
            rw [hflags.2] at heq2
            rw [walk_false_id heq1] at heq1
            rw [walk_false_id heq2] at heq2
            simp only [Except.ok.injEq, Prod.mk.injEq] at h
            obtain ⟨h1, h2, h3⟩ := h
            subst h1
            have esz : nodeSize (Node.AssignmentPattern l r2)
                = 1 + nodeSize l + nodeSize r2 := by simp [nodeSize]
            have hsz1 : nodeSize l < k' := by omega
            have hsz2 : nodeSize r2 < k' := by omega
            have hc1 := ih l s l false s hGok heq1 k' hsz1
            have hc2 := ih r2 s r2 false s hGok heq2 k' hsz2
            refine step2_fix Node.AssignmentPattern ?_ ?_ hc1 hc2
            · exact hen
            · rfl
    case TaggedTemplateExpression t q =>
      simp only [walkStep] at h
      unfold walk2 at h
      split at h
      · exact Except.noConfusion h
      · rename_i rr1 cch1 ss1 heq1
        have hs1 : ss1 = s := walk_scope cfg g f t s rr1 cch1 ss1 heq1
        rw [hs1] at heq1
        split at h
        · exact Except.noConfusion h
        · rename_i rr2 cch2 ss2 heq2
          rw [hs1] at heq2
          have hs2 : ss2 = s := walk_scope cfg g f q s rr2 cch2 ss2 heq2
          rw [hs2] at heq2
          split at h
          · simp only [Except.ok.injEq, Prod.mk.injEq] at h
            obtain ⟨h1, h2, h3⟩ := h
            subst h1
            have esz : nodeSize (Node.TaggedTemplateExpression rr1 rr2)
                = 1 + nodeSize rr1 + nodeSize rr2 := by simp [nodeSize]
            have hsz1 : nodeSize rr1 < k' := by omega
            have hsz2 : nodeSize rr2 < k' := by omega
            have hc1 := ih t s rr1 cch1 s hGok heq1 k' hsz1
            have hc2 := ih q s rr2 cch2 s hGok heq2 k' hsz2
            refine step2_fix Node.TaggedTemplateExpression ?_ ?_ hc1 hc2
            · exact hen
            · rfl
          · rename_i hchn
            have hflags : cch1 = false ∧ cch2 = false := by
              cases cch1 <;> cases cch2 <;> simp_all
            rw [hflags.1] at heq1
            rw [hflags.2] at heq2
            rw [walk_false_id heq1] at heq1
            rw [walk_false_id heq2] at heq2
            simp only [Except.ok.injEq, Prod.mk.injEq] at h
            obtain ⟨h1, h2, h3⟩ := h
            subst h1
            have esz : nodeSize (Node.TaggedTemplateExpression t q)
                = 1 + nodeSize t + nodeSize q := by simp [nodeSize]
            have hsz1 : nodeSize t < k' := by omega
            have hsz2 : nodeSize q < k' := by omega
            have hc1 := ih t s t false s hGok heq1 k' hsz1
            have hc2 := ih q s q false s hGok heq2 k' hsz2
            refine step2_fix Node.TaggedTemplateExpression ?_ ?_ hc1 hc2
            · exact hen
            · rfl
    case ConditionalExpression a b c =>
      simp only [walkStep] at h
      unfold walk3 at h
      split at h
      · exact Except.noConfusion h
      · rename_i rr1 cch1 ss1 heq1
        have hs1 : ss1 = s := walk_scope cfg g f a s rr1 cch1 ss1 heq1
        rw [hs1] at heq1
        split at h
        · exact Except.noConfusion h
        · rename_i rr2 cch2 ss2 heq2
          rw [hs1] at heq2
          have hs2 : ss2 = s := walk_scope cfg g f b s rr2 cch2 ss2 heq2
          rw [hs2] at heq2
          split at h
          · exact Except.noConfusion h
          · rename_i rr3 cch3 ss3 heq3
            rw [hs2] at heq3
            have hs3 : ss3 = s := walk_scope cfg g f c s rr3 cch3 ss3 heq3
            rw [hs3] at heq3
            split at h
            · simp only [Except.ok.injEq, Prod.mk.injEq] at h
              obtain ⟨h1, h2, h3⟩ := h
              subst h1
              have esz : nodeSize (Node.ConditionalExpression rr1 rr2 rr3)
                  = 1 + nodeSize rr1 + nodeSize rr2 + nodeSize rr3 := by
                simp [nodeSize]
              have hsz1 : nodeSize rr1 < k' := by omega
              have hsz2 : nodeSize rr2 < k' := by omega
              have hsz3 : nodeSize rr3 < k' := by omega
              have hc1 := ih a s rr1 cch1 s hGok heq1 k' hsz1
              have hc2 := ih b s rr2 cch2 s hGok heq2 k' hsz2
              have hc3 := ih c s rr3 cch3 s hGok heq3 k' hsz3
              refine step3_fix Node.ConditionalExpression ?_ ?_ hc1 hc2 hc3
              · exact hen
              · rfl
            · rename_i hchn
              have hflags : cch1 = false ∧ cch2 = false ∧ cch3 = false := by
                cases cch1 <;> cases cch2 <;> cases cch3 <;> simp_all
              rw [hflags.1] at heq1
              rw [hflags.2.1] at heq2
              rw [hflags.2.2] at heq3
              rw [walk_false_id heq1] at heq1
              rw [walk_false_id heq2] at heq2
              rw [walk_false_id heq3] at heq3
              simp only [Except.ok.injEq, Prod.mk.injEq] at h
              obtain ⟨h1, h2, h3⟩ := h
              subst h1
              have esz : nodeSize (Node.ConditionalExpression a b c)
                  = 1 + nodeSize a + nodeSize b + nodeSize c := by simp [nodeSize]
              have hsz1 : nodeSize a < k' := by omega
              have hsz2 : nodeSize b < k' := by omega
              have hsz3 : nodeSize c < k' := by omega
              have hc1 := ih a s a false s hGok heq1 k' hsz1
              have hc2 := ih b s b false s hGok heq2 k' hsz2
              have hc3 := ih c s c false s hGok heq3 k' hsz3
              refine step3_fix Node.ConditionalExpression ?_ ?_ hc1 hc2 hc3
              · exact hen
              · rfl
    case ObjectExpression ps2 =>
      simp only [walkStep] at h
      unfold walkL at h
      split at h
      · exact Except.noConfusion h
      · rename_i rs1 cch1 ss1 heq1
        have hs1 : ss1 = s := walkList_scope (walk_scope cfg g f) ps2 s rs1 cch1 ss1 heq1
        rw [hs1] at heq1
        split at h
        · simp only [Except.ok.injEq, Prod.mk.injEq] at h
          obtain ⟨h1, h2, h3⟩ := h
          subst h1
          have esz : nodeSize (Node.ObjectExpression rs1) = 1 + nodesSize rs1 := by
            simp [nodeSize]
          have hsz : nodesSize rs1 < k' := by omega
          have hl := walkList_all_id rs1 s (fun x hx =>
            walkList_fix ih ps2 s rs1 cch1 s hGok heq1 k' x hx
              (Nat.lt_of_le_of_lt (nodeSize_le_of_mem rs1 x hx) hsz))
          refine stepL_fix Node.ObjectExpression ?_ ?_ hl
          · exact hen
          · rfl
        · rename_i hchn
          have hch : cch1 = false := by
            cases cch1
            · rfl
            · exact absurd rfl hchn
          rw [hch] at heq1
          rw [walkList_false_id ps2 s rs1 s heq1] at heq1
          simp only [Except.ok.injEq, Prod.mk.injEq] at h
          obtain ⟨h1, h2, h3⟩ := h
          subst h1
          have esz : nodeSize (Node.ObjectExpression ps2) = 1 + nodesSize ps2 := by
            simp [nodeSize]
          have hsz : nodesSize ps2 < k' := by omega
          have hl := walkList_all_id ps2 s (fun x hx =>
            walkList_fix ih ps2 s ps2 false s hGok heq1 k' x hx
              (Nat.lt_of_le_of_lt (nodeSize_le_of_mem ps2 x hx) hsz))
          refine stepL_fix Node.ObjectExpression ?_ ?_ hl
          · exact hen
          · rfl
    case SequenceExpression es2 =>
      simp only [walkStep] at h
      unfold walkL at h
      split at h
      · exact Except.noConfusion h
      · rename_i rs1 cch1 ss1 heq1
        have hs1 : ss1 = s := walkList_scope (walk_scope cfg g f) es2 s rs1 cch1 ss1 heq1
        rw [hs1] at heq1
        split at h
        · simp only [Except.ok.injEq, Prod.mk.injEq] at h
          obtain ⟨h1, h2, h3⟩ := h
          subst h1
          have esz : nodeSize (Node.SequenceExpression rs1) = 1 + nodesSize rs1 := by
            simp [nodeSize]
          have hsz : nodesSize rs1 < k' := by omega
          have hl := walkList_all_id rs1 s (fun x hx =>
            walkList_fix ih es2 s rs1 cch1 s hGok heq1 k' x hx
              (Nat.lt_of_le_of_lt (nodeSize_le_of_mem rs1 x hx) hsz))
          refine stepL_fix Node.SequenceExpression ?_ ?_ hl
          · exact hen
          · rfl
        · rename_i hchn
          have hch : cch1 = false := by
            cases cch1
            · rfl
            · exact absurd rfl hchn
          rw [hch] at heq1
          rw [walkList_false_id es2 s rs1 s heq1] at heq1
          simp only [Except.ok.injEq, Prod.mk.injEq] at h
          obtain ⟨h1, h2, h3⟩ := h
          subst h1
          have esz : nodeSize (Node.SequenceExpression es2) = 1 + nodesSize es2 := by
            simp [nodeSize]
          have hsz : nodesSize es2 < k' := by omega
          have hl := walkList_all_id es2 s (fun x hx =>
            walkList_fix ih es2 s es2 false s hGok heq1 k' x hx
              (Nat.lt_of_le_of_lt (nodeSize_le_of_mem es2 x hx) hsz))
          refine stepL_fix Node.SequenceExpression ?_ ?_ hl
          · exact hen
          · rfl
    case ObjectPattern ps2 =>
      simp only [walkStep] at h
      unfold walkL at h
      split at h
      · exact Except.noConfusion h
      · rename_i rs1 cch1 ss1 heq1
        have hs1 : ss1 = s := walkList_scope (walk_scope cfg g f) ps2 s rs1 cch1 ss1 heq1
        rw [hs1] at heq1
        split at h
        · simp only [Except.ok.injEq, Prod.mk.injEq] at h
          obtain ⟨h1, h2, h3⟩ := h
          subst h1
          have esz : nodeSize (Node.ObjectPattern rs1) = 1 + nodesSize rs1 := by
            simp [nodeSize]
          have hsz : nodesSize rs1 < k' := by omega
          have hl := walkList_all_id rs1 s (fun x hx =>
            walkList_fix ih ps2 s rs1 cch1 s hGok heq1 k' x hx
              (Nat.lt_of_le_of_lt (nodeSize_le_of_mem rs1 x hx) hsz))
          refine stepL_fix Node.ObjectPattern ?_ ?_ hl
          · exact hen
          · rfl
        · rename_i hchn
          have hch : cch1 = false := by
            cases cch1
            · rfl
            · exact absurd rfl hchn
          rw [hch] at heq1
          rw [walkList_false_id ps2 s rs1 s heq1] at heq1
          simp only [Except.ok.injEq, Prod.mk.injEq] at h
          obtain ⟨h1, h2, h3⟩ := h
          subst h1
          have esz : nodeSize (Node.ObjectPattern ps2) = 1 + nodesSize ps2 := by
            simp [nodeSize]
          have hsz : nodesSize ps2 < k' := by omega
          have hl := walkList_all_id ps2 s (fun x hx =>
            walkList_fix ih ps2 s ps2 false s hGok heq1 k' x hx
              (Nat.lt_of_le_of_lt (nodeSize_le_of_mem ps2 x hx) hsz))
          refine stepL_fix Node.ObjectPattern ?_ ?_ hl
          · exact hen
          · rfl
    case ArrayExpression es2 =>
      simp only [walkStep] at h
      unfold walkO at h
      split at h
      · exact Except.noConfusion h
      · rename_i rs1 cch1 ss1 heq1
        have hs1 : ss1 = s := walkOpts_scope (walk_scope cfg g f) es2 s rs1 cch1 ss1 heq1
        rw [hs1] at heq1
        split at h
        · simp only [Except.ok.injEq, Prod.mk.injEq] at h
          obtain ⟨h1, h2, h3⟩ := h
          subst h1
          have esz : nodeSize (Node.ArrayExpression rs1) = 1 + optsSize rs1 := by
            simp [nodeSize]
          have hsz : optsSize rs1 < k' := by omega
          have hl := walkOpts_all_id rs1 s (fun x hx =>
            walkOpts_fix ih es2 s rs1 cch1 s hGok heq1 k' x hx
              (Nat.lt_of_le_of_lt (nodeSize_le_of_mem_opts rs1 x hx) hsz))
          refine stepO_fix Node.ArrayExpression ?_ ?_ hl
          · exact hen
          · rfl
        · rename_i hchn
          have hch : cch1 = false := by
            cases cch1
            · rfl
            · exact absurd rfl hchn
          rw [hch] at heq1
          rw [walkOpts_false_id es2 s rs1 s heq1] at heq1
          simp only [Except.ok.injEq, Prod.mk.injEq] at h
          obtain ⟨h1, h2, h3⟩ := h
          subst h1
          have esz : nodeSize (Node.ArrayExpression es2) = 1 + optsSize es2 := by
            simp [nodeSize]
          have hsz : optsSize es2 < k' := by omega
          have hl := walkOpts_all_id es2 s (fun x hx =>
            walkOpts_fix ih es2 s es2 false s hGok heq1 k' x hx
              (Nat.lt_of_le_of_lt (nodeSize_le_of_mem_opts es2 x hx) hsz))
          refine stepO_fix Node.ArrayExpression ?_ ?_ hl
          · exact hen
          · rfl
    case ArrayPattern es2 =>
      simp only [walkStep] at h
      unfold walkO at h
      split at h
      · exact Except.noConfusion h
      · rename_i rs1 cch1 ss1 heq1
        have hs1 : ss1 = s := walkOpts_scope (walk_scope cfg g f) es2 s rs1 cch1 ss1 heq1
        rw [hs1] at heq1
        split at h
        · simp only [Except.ok.injEq, Prod.mk.injEq] at h
          obtain ⟨h1, h2, h3⟩ := h
          subst h1
          have esz : nodeSize (Node.ArrayPattern rs1) = 1 + optsSize rs1 := by
            simp [nodeSize]
          have hsz : optsSize rs1 < k' := by omega
          have hl := walkOpts_all_id rs1 s (fun x hx =>
            walkOpts_fix ih es2 s rs1 cch1 s hGok heq1 k' x hx
              (Nat.lt_of_le_of_lt (nodeSize_le_of_mem_opts rs1 x hx) hsz))
          refine stepO_fix Node.ArrayPattern ?_ ?_ hl
          · exact hen
          · rfl
        · rename_i hchn
          have hch : cch1 = false := by
            cases cch1
            · rfl
            · exact absurd rfl hchn
          rw [hch] at heq1
          rw [walkOpts_false_id es2 s rs1 s heq1] at heq1
          simp only [Except.ok.injEq, Prod.mk.injEq] at h
          obtain ⟨h1, h2, h3⟩ := h
          subst h1
          have esz : nodeSize (Node.ArrayPattern es2) = 1 + optsSize es2 := by
            simp [nodeSize]
          have hsz : optsSize es2 < k' := by omega
          have hl := walkOpts_all_id es2 s (fun x hx =>
            walkOpts_fix ih es2 s es2 false s hGok heq1 k' x hx
              (Nat.lt_of_le_of_lt (nodeSize_le_of_mem_opts es2 x hx) hsz))
          refine stepO_fix Node.ArrayPattern ?_ ?_ hl
          · exact hen
          · rfl
    case TemplateLiteral qs es2 =>
      simp only [walkStep] at h
      unfold walkLL at h
      split at h
      · exact Except.noConfusion h
      · rename_i rs1 cch1 ss1 heq1
        have hs1 : ss1 = s := walkList_scope (walk_scope cfg g f) qs s rs1 cch1 ss1 heq1
        rw [hs1] at heq1
        split at h
        · exact Except.noConfusion h
        · rename_i rs2 cch2 ss2 heq2
          rw [hs1] at heq2
          have hs2 : ss2 = s := walkList_scope (walk_scope cfg g f) es2 s rs2 cch2 ss2 heq2
          rw [hs2] at heq2
          split at h
          · simp only [Except.ok.injEq, Prod.mk.injEq] at h
            obtain ⟨h1, h2, h3⟩ := h
            subst h1
            have esz : nodeSize (Node.TemplateLiteral rs1 rs2)
                = 1 + nodesSize rs1 + nodesSize rs2 := by simp [nodeSize]
            have hsz1 : nodesSize rs1 < k' := by omega
            have hsz2 : nodesSize rs2 < k' := by omega
            have hl1 := walkList_all_id rs1 s (fun x hx =>
              walkList_fix ih qs s rs1 cch1 s hGok heq1 k' x hx
                (Nat.lt_of_le_of_lt (nodeSize_le_of_mem rs1 x hx) hsz1))
            have hl2 := walkList_all_id rs2 s (fun x hx =>
              walkList_fix ih es2 s rs2 cch2 s hGok heq2 k' x hx
                (Nat.lt_of_le_of_lt (nodeSize_le_of_mem rs2 x hx) hsz2))
            refine stepLL_fix Node.TemplateLiteral ?_ ?_ hl1 hl2
            · exact hen
            · rfl
          · rename_i hchn
            have hflags : cch1 = false ∧ cch2 = false := by
              cases cch1 <;> cases cch2 <;> simp_all
            rw [hflags.1] at heq1
            rw [hflags.2] at heq2
            rw [walkList_false_id qs s rs1 s heq1] at heq1
            rw [walkList_false_id es2 s rs2 s heq2] at heq2
            simp only [Except.ok.injEq, Prod.mk.injEq] at h
            obtain ⟨h1, h2, h3⟩ := h
            subst h1
            have esz : nodeSize (Node.TemplateLiteral qs es2)
                = 1 + nodesSize qs + nodesSize es2 := by simp [nodeSize]
            have hsz1 : nodesSize qs < k' := by omega
            have hsz2 : nodesSize es2 < k' := by omega
            have hl1 := walkList_all_id qs s (fun x hx =>
              walkList_fix ih qs s qs false s hGok heq1 k' x hx
                (Nat.lt_of_le_of_lt (nodeSize_le_of_mem qs x hx) hsz1))
            have hl2 := walkList_all_id es2 s (fun x hx =>
              walkList_fix ih es2 s es2 false s hGok heq2 k' x hx
                (Nat.lt_of_le_of_lt (nodeSize_le_of_mem es2 x hx) hsz2))
            refine stepLL_fix Node.TemplateLiteral ?_ ?_ hl1 hl2
            · exact hen
            · rfl
    case NewExpression c2 as2 =>
      simp only [walkStep] at h
      unfold walk1L at h
      split at h
      · exact Except.noConfusion h
      · rename_i rr1 cch1 ss1 heq1
        have hs1 : ss1 = s := walk_scope cfg g f c2 s rr1 cch1 ss1 heq1
        rw [hs1] at heq1
        split at h
        · exact Except.noConfusion h
        · rename_i rs2 cch2 ss2 heq2
          rw [hs1] at heq2
          have hs2 : ss2 = s := walkList_scope (walk_scope cfg g f) as2 s rs2 cch2 ss2 heq2
          rw [hs2] at heq2
          split at h
          · simp only [Except.ok.injEq, Prod.mk.injEq] at h
            obtain ⟨h1, h2, h3⟩ := h
            subst h1
            have esz : nodeSize (Node.NewExpression rr1 rs2)
                = 1 + nodeSize rr1 + nodesSize rs2 := by simp [nodeSize]
            have hsz1 : nodeSize rr1 < k' := by omega
            have hsz2 : nodesSize rs2 < k' := by omega
            have hc1 := ih c2 s rr1 cch1 s hGok heq1 k' hsz1
            have hl := walkList_all_id rs2 s (fun x hx =>
              walkList_fix ih as2 s rs2 cch2 s hGok heq2 k' x hx
                (Nat.lt_of_le_of_lt (nodeSize_le_of_mem rs2 x hx) hsz2))
            refine step1L_fix Node.NewExpression ?_ ?_ hc1 hl
            · exact hen
            · rfl
          · rename_i hchn
            have hflags : cch1 = false ∧ cch2 = false := by
              cases cch1 <;> cases cch2 <;> simp_all
            rw [hflags.1] at heq1
            rw [hflags.2] at heq2
            rw [walk_false_id heq1] at heq1
            rw [walkList_false_id as2 s rs2 s heq2] at heq2
            simp only [Except.ok.injEq, Prod.mk.injEq] at h
            obtain ⟨h1, h2, h3⟩ := h
            subst h1
            have esz : nodeSize (Node.NewExpression c2 as2)
                = 1 + nodeSize c2 + nodesSize as2 := by simp [nodeSize]
            have hsz1 : nodeSize c2 < k' := by omega
            have hsz2 : nodesSize as2 < k' := by omega
            have hc1 := ih c2 s c2 false s hGok heq1 k' hsz1
            have hl := walkList_all_id as2 s (fun x hx =>
              walkList_fix ih as2 s as2 false s hGok heq2 k' x hx
                (Nat.lt_of_le_of_lt (nodeSize_le_of_mem as2 x hx) hsz2))
            refine step1L_fix Node.NewExpression ?_ ?_ hc1 hl
            · exact hen
            · rfl
    case CallExpression c2 as2 opt =>
      simp only [walkStep] at h
      unfold walk1L at h
      split at h
      · exact Except.noConfusion h
      · rename_i rr1 cch1 ss1 heq1
        have hs1 : ss1 = s := walk_scope cfg g f c2 s rr1 cch1 ss1 heq1
        rw [hs1] at heq1
        split at h
        · exact Except.noConfusion h
        · rename_i rs2 cch2 ss2 heq2
          rw [hs1] at heq2
          have hs2 : ss2 = s := walkList_scope (walk_scope cfg g f) as2 s rs2 cch2 ss2 heq2
          rw [hs2] at heq2
          split at h
          · simp only [Except.ok.injEq, Prod.mk.injEq] at h
            obtain ⟨h1, h2, h3⟩ := h
            subst h1
            have esz : nodeSize (Node.CallExpression rr1 rs2 opt)
                = 1 + nodeSize rr1 + nodesSize rs2 := by simp [nodeSize]
            have hsz1 : nodeSize rr1 < k' := by omega
            have hsz2 : nodesSize rs2 < k' := by omega
            have hc1 := ih c2 s rr1 cch1 s hGok heq1 k' hsz1
            have hl := walkList_all_id rs2 s (fun x hx =>
              walkList_fix ih as2 s rs2 cch2 s hGok heq2 k' x hx
                (Nat.lt_of_le_of_lt (nodeSize_le_of_mem rs2 x hx) hsz2))
            refine step1L_fix (fun x ys => Node.CallExpression x ys opt) ?_ ?_ hc1 hl
            · exact hen
            · rfl
          · rename_i hchn
            have hflags : cch1 = false ∧ cch2 = false := by
              cases cch1 <;> cases cch2 <;> simp_all
            rw [hflags.1] at heq1
            rw [hflags.2] at heq2
            rw [walk_false_id heq1] at heq1
            rw [walkList_false_id as2 s rs2 s heq2] at heq2
            simp only [Except.ok.injEq, Prod.mk.injEq] at h
            obtain ⟨h1, h2, h3⟩ := h
            subst h1
            have esz : nodeSize (Node.CallExpression c2 as2 opt)
                = 1 + nodeSize c2 + nodesSize as2 := by simp [nodeSize]
            have hsz1 : nodeSize c2 < k' := by omega
            have hsz2 : nodesSize as2 < k' := by omega
            have hc1 := ih c2 s c2 false s hGok heq1 k' hsz1
            have hl := walkList_all_id as2 s (fun x hx =>
              walkList_fix ih as2 s as2 false s hGok heq2 k' x hx
                (Nat.lt_of_le_of_lt (nodeSize_le_of_mem as2 x hx) hsz2))
            refine step1L_fix (fun x ys => Node.CallExpression x ys opt) ?_ ?_ hc1 hl
            · exact hen
            · rfl
    case Identifier name =>
      simp only [walkStep] at h
      split at h
      · rename_i hmem
        simp only [Except.ok.injEq, Prod.mk.injEq] at h
        obtain ⟨h1, h2, h3⟩ := h
        subst h1
        refine walk_succ_intro rfl ?_
        simp [walkStep, hmem]
      · rename_i hmem
        split at h
        · exact Except.noConfusion h
        · rename_i gl
          simp only [Except.ok.injEq, Prod.mk.injEq] at h
          obtain ⟨h1, h2, h3⟩ := h
          by_cases hgl : gl = "this"
          · rw [if_pos hgl] at h1
            subst h1
            subst hgl
            have het : cfg.enableThis = true := by
              simpa [GlobalOk] using hGok
            have hpos : 1 ≤ nodeSize (Node.MemberExpression Node.ThisExpression
                (Node.Identifier name) false false) := nodeSize_pos _
            obtain ⟨k2, rfl⟩ : ∃ m, k' = m + 1 := ⟨k' - 1, by omega⟩
            have hthis : walk cfg (some "this") (k2 + 1) Node.ThisExpression s
                = .ok (Node.ThisExpression, false, s) := by
              refine walk_succ_intro ?_ rfl
              simp [enter, test, het]
            refine member_fix rfl rfl hthis ?_
            intro hcomp
            exact absurd hcomp Bool.false_ne_true
          · rw [if_neg hgl] at h1
            subst h1
            have hmem2 : gl ∈ s := by
              simpa [GlobalOk, if_neg hgl] using hGok
            have hpos : 1 ≤ nodeSize (Node.MemberExpression (Node.Identifier gl)
                (Node.Identifier name) false false) := nodeSize_pos _
            obtain ⟨k2, rfl⟩ : ∃ m, k' = m + 1 := ⟨k' - 1, by omega⟩
            have hobj : walk cfg (some gl) (k2 + 1) (Node.Identifier gl) s
                = .ok (Node.Identifier gl, false, s) := by
              refine walk_succ_intro rfl ?_
              simp [walkStep, hmem2]
            refine member_fix rfl rfl hobj ?_
            intro hcomp
            exact absurd hcomp Bool.false_ne_true
    case ArrowFunctionExpression ps body async =>
      simp only [walkStep] at h
      split at h
      · exact Except.noConfusion h
      · rename_i hblk
        split at h
        · exact Except.noConfusion h
        · rename_i ss1 heq1
          split at h
          · exact Except.noConfusion h
          · rename_i b cch2 ss2 heq2
            obtain ⟨ns, hns⟩ := extractParams_append f ps s ss1 heq1
            have hs2 : ss2 = ss1 := walk_scope cfg g f body ss1 b cch2 ss2 heq2
            rw [hs2] at heq2
            have hGok1 : GlobalOk g cfg ss1 := by
              rw [hns]
              exact GlobalOk_append hGok
            have htake : ss1.take s.length = s := by
              rw [hns]
              exact List.take_left s ns
            have hbtag := walk_ok_tag heq2
            split at h
            · simp only [Except.ok.injEq, Prod.mk.injEq] at h
              obtain ⟨h1, h2, h3⟩ := h
              subst h1
              have esz : nodeSize (Node.ArrowFunctionExpression ps b async)
                  = 1 + nodesSize ps + nodeSize b := by simp [nodeSize]
              have hszb : nodeSize b < k' := by omega
              have hszp : nodesSize ps < k' := by
                have hbp := nodeSize_pos b
                omega
              have hfb := ih body ss1 b cch2 ss1 hGok1 heq2 k' hszb
              have hext := extractParams_stable f ps s ss1 k' heq1 hszp
              exact arrow_fix hen hbtag.2.2 hext hfb htake
            · rename_i hchn
              have hch : cch2 = false := by
                cases cch2
                · rfl
                · exact absurd rfl hchn
              rw [hch] at heq2
              rw [walk_false_id heq2] at heq2
              simp only [Except.ok.injEq, Prod.mk.injEq] at h
              obtain ⟨h1, h2, h3⟩ := h
              subst h1
              have esz : nodeSize (Node.ArrowFunctionExpression ps body async)
                  = 1 + nodesSize ps + nodeSize body := by simp [nodeSize]
              have hszb : nodeSize body < k' := by omega
              have hszp : nodesSize ps < k' := by
                have hbp := nodeSize_pos body
                omega
              have hfb := ih body ss1 body false ss1 hGok1 heq2 k' hszb
              have hext := extractParams_stable f ps s ss1 k' heq1 hszp
              have hblk2 : isBlock body = false := by
                cases hb2 : isBlock body
                · rfl
                · exact absurd hb2 hblk
              exact arrow_fix hen hblk2 hext hfb htake
    case MemberExpression o p comp opt =>
      simp only [walkStep] at h
      split at h
      · exact Except.noConfusion h
      · rename_i hsup
        split at h
        · exact Except.noConfusion h
        · rename_i hprv
          split at h
          · exact Except.noConfusion h
          · rename_i ro cho ss1 heq1
            have hs1 : ss1 = s := walk_scope cfg g f o s ro cho ss1 heq1
            rw [hs1] at heq1
            split at h
            · exact Except.noConfusion h
            · rename_i rp chp ss2 heq2
              rw [hs1] at heq2
              have hs2 : ss2 = s := walkCond_scope (walk_scope cfg g f) heq2
              rw [hs2] at heq2
              have hotag := walk_ok_tag heq1
              have hsupf : isSuper o = false := by
                cases hx : isSuper o
                · rfl
                · exact absurd hx hsup
              have hprvf : isPrivate p = false := by
                cases hx : isPrivate p
                · rfl
                · exact absurd hx hprv
              split at h
              · simp only [Except.ok.injEq, Prod.mk.injEq] at h
                obtain ⟨h1, h2, h3⟩ := h
                subst h1
                have esz : nodeSize (Node.MemberExpression ro rp comp opt)
                    = 1 + nodeSize ro + nodeSize rp := by simp [nodeSize]
                have hsz1 : nodeSize ro < k' := by omega
                have hsz2 : nodeSize rp < k' := by omega
                have hfo := ih o s ro cho s hGok heq1 k' hsz1
                by_cases hc : comp = true
                · rw [if_pos hc] at heq2
                  have hptag := walk_ok_tag heq2
                  have hfp := ih p s rp chp s hGok heq2 k' hsz2
                  exact member_fix hotag.1 hptag.2.1 hfo (fun _ => hfp)
                · rw [if_neg hc] at heq2
                  simp only [Except.ok.injEq, Prod.mk.injEq] at heq2
                  obtain ⟨hq1, hq2, hq3⟩ := heq2
                  subst hq1
                  exact member_fix hotag.1 hprvf hfo (fun hcc => absurd hcc hc)
              · rename_i hchn
                have hflags : cho = false ∧ chp = false := by
                  cases cho <;> cases chp <;> simp_all
                rw [hflags.1] at heq1
                rw [walk_false_id heq1] at heq1
                simp only [Except.ok.injEq, Prod.mk.injEq] at h
                obtain ⟨h1, h2, h3⟩ := h
                subst h1
                have esz : nodeSize (Node.MemberExpression o p comp opt)
                    = 1 + nodeSize o + nodeSize p := by simp [nodeSize]
                have hsz1 : nodeSize o < k' := by omega
                have hsz2 : nodeSize p < k' := by omega
                have hfo := ih o s o false s hGok heq1 k' hsz1
                by_cases hc : comp = true
                · rw [if_pos hc, hflags.2] at heq2
                  rw [walk_false_id heq2] at heq2
                  have hfp := ih p s p false s hGok heq2 k' hsz2
                  exact member_fix hsupf hprvf hfo (fun _ => hfp)
                · exact member_fix hsupf hprvf hfo (fun hcc => absurd hcc hc)
    case Property kx v comp sh kind =>
      simp only [walkStep] at h
      split at h
      · exact Except.noConfusion h
      · rename_i hprv
        split at h
        · exact Except.noConfusion h
        · rename_i rk chk ss1 heq1
          have hs1 : ss1 = s := walkCond_scope (walk_scope cfg g f) heq1
          rw [hs1] at heq1
          split at h
          · exact Except.noConfusion h
          · rename_i rv chv ss2 heq2
            rw [hs1] at heq2
            have hs2 : ss2 = s := walk_scope cfg g f v s rv chv ss2 heq2
            rw [hs2] at heq2
            have hprvf : isPrivate kx = false := by
              cases hx : isPrivate kx
              · rfl
              · exact absurd hx hprv
            split at h
            · simp only [Except.ok.injEq, Prod.mk.injEq] at h
              obtain ⟨h1, h2, h3⟩ := h
              subst h1
              have esz : nodeSize (Node.Property rk rv comp sh kind)
                  = 1 + nodeSize rk + nodeSize rv := by simp [nodeSize]
              have hsz1 : nodeSize rk < k' := by omega
              have hsz2 : nodeSize rv < k' := by omega
              have hfv := ih v s rv chv s hGok heq2 k' hsz2
              by_cases hc : comp = true
              · rw [if_pos hc] at heq1
                have hktag := walk_ok_tag heq1
                have hfk := ih kx s rk chk s hGok heq1 k' hsz1
                exact property_fix hktag.2.1 (fun _ => hfk) hfv
              · rw [if_neg hc] at heq1
                simp only [Except.ok.injEq, Prod.mk.injEq] at heq1
                obtain ⟨hq1, hq2, hq3⟩ := heq1
                subst hq1
                exact property_fix hprvf (fun hcc => absurd hcc hc) hfv
            · rename_i hchn
              have hflags : chk = false ∧ chv = false := by
                cases chk <;> cases chv <;> simp_all
              rw [hflags.2] at heq2
              rw [walk_false_id heq2] at heq2
              simp only [Except.ok.injEq, Prod.mk.injEq] at h
              obtain ⟨h1, h2, h3⟩ := h
              subst h1
              have esz : nodeSize (Node.Property kx v comp sh kind)
                  = 1 + nodeSize kx + nodeSize v := by simp [nodeSize]
              have hsz1 : nodeSize kx < k' := by omega
              have hsz2 : nodeSize v < k' := by omega
              have hfv := ih v s v false s hGok heq2 k' hsz2
              by_cases hc : comp = true
              · rw [if_pos hc, hflags.1] at heq1
                rw [walk_false_id heq1] at heq1
                have hfk := ih kx s kx false s hGok heq1 k' hsz1
                exact property_fix hprvf (fun _ => hfk) hfv
              · exact property_fix hprvf (fun hcc => absurd hcc hc) hfv

/-- Boolean admission condition of unary and binary operators, spelled as
the disallowed-operator disjunction of the spec. -/
lemma unaryCond_iff (cfg : Enables) (op : String) :
    (((cfg.enableUpdate || op != "delete")
      && (cfg.enableInspect || (op != "typeof" && op != "in" && op != "instanceof"))) = false)
    ↔ ((op = "delete" ∧ cfg.enableUpdate = false)
       ∨ ((op = "typeof" ∨ op = "in" ∨ op = "instanceof") ∧ cfg.enableInspect = false)) := by
  cases hu : cfg.enableUpdate <;> cases hi : cfg.enableInspect <;>
    by_cases hd : op = "delete" <;> by_cases ht : op = "typeof" <;>
    by_cases hn : op = "in" <;> by_cases ho : op = "instanceof" <;>
    simp_all [bne_iff_ne]


/-- C1: refuted on the code.  With parameters `["g"]` and global binding
`"g"`, `transform` accepts `(a = c) => a` and returns it unchanged, although
the returned tree still contains the identifier `c`, which is neither the
parameter `g` nor the pattern-bound `a`, and has not been rewritten into a
property access on `g`: the arrow handler scans parameter patterns for
bound names but never walks them, so default-value expressions escape both
the policy check and identifier resolution. -/
theorem c1_output_contains_free_identifier :
    transform arrowDefaultFree ["g"] (some "g") {} = .ok arrowDefaultFree
    ∧ ¬("c" ∈ ["g", "a"]) := ⟨rfl, by decide⟩

/-- C2: refuted on the code.  With no parameters and no global binding,
`transform` accepts `(a = c) => a` unchanged: the default expression `c` is
never visited, so it is neither policy-checked nor resolved — a visited free
`c` would have raised the unresolved-reference error. -/
theorem c2_default_value_not_visited :
    transform arrowDefaultFree [] none {} = .ok arrowDefaultFree := rfl

/-- C3 counterexample: with an empty parameter list and global binding
`"g"`, `transform` does not succeed — the entry validation requires a
non-`this` global binding to appear in the parameter list. -/
theorem c3_counterexample :
    transform (.Identifier "a") [] (some "g") {}
      = .error (.syntaxError "global object name 'g' is not in parameter list") := rfl

/-- C3 amended: with parameter list `["g"]` (the global binding must be
listed) and global binding `"g"`, transforming the identifier `a` succeeds
and returns the non-computed property access `g.a`. -/
theorem c3_amended_global_member :
    transform (.Identifier "a") ["g"] (some "g") {}
      = .ok (.MemberExpression (.Identifier "g") (.Identifier "a") false false) := rfl

/-- C4: a visited identifier leaf is returned unchanged when its name is a
member of the scope list (simple membership); otherwise, with no global
binding the walker fails with the unresolved-reference error naming it, and
with a global binding it returns a non-computed property access whose
object is the this-reference (for the sentinel `this`) or the global
identifier, and whose property is the original identifier. -/
theorem c4_identifier_resolution (cfg : Enables) (g : Option String) (f : Nat)
    (name : String) (s : List String) :
    (name ∈ s →
      walk cfg g (f + 1) (.Identifier name) s = .ok (.Identifier name, false, s))
    ∧ (name ∉ s → g = none →
      walk cfg g (f + 1) (.Identifier name) s
        = .error (.referenceError ("variable '" ++ name ++ "' is not defined")))
    ∧ (∀ gl, name ∉ s → g = some gl →
      walk cfg g (f + 1) (.Identifier name) s
        = .ok (.MemberExpression
            (if gl = "this" then .ThisExpression else .Identifier gl)
            (.Identifier name) false false, true, s)) := by
  refine ⟨?_, ?_, ?_⟩
  · intro hm
    refine walk_succ_intro rfl ?_
    simp [walkStep, hm]
  · intro hm hg
    subst hg
    refine walk_succ_intro rfl ?_
    simp [walkStep, hm]
  · intro gl hm hg
    subst hg
    refine walk_succ_intro rfl ?_
    simp [walkStep, hm]

/-- Witness for C4: the three branches at concrete inputs. -/
theorem c4_identifier_resolution_witness :
    ("a" ∈ (["a"] : List String)
      ∧ walk {} none 1 (.Identifier "a") ["a"] = .ok (.Identifier "a", false, ["a"]))
    ∧ ("a" ∉ ([] : List String)
      ∧ walk {} none 1 (.Identifier "a") []
        = .error (.referenceError ("variable '" ++ "a" ++ "' is not defined")))
    ∧ ("a" ∉ (["g"] : List String)
      ∧ walk {} (some "g") 1 (.Identifier "a") ["g"]
        = .ok (.MemberExpression
            (if "g" = "this" then .ThisExpression else .Identifier "g")
            (.Identifier "a") false false, true, ["g"])) :=
  ⟨⟨by decide, (c4_identifier_resolution {} none 0 "a" ["a"]).1 (by decide)⟩,
   ⟨by decide, (c4_identifier_resolution {} none 0 "a" []).2.1 (by decide) rfl⟩,
   ⟨by decide, (c4_identifier_resolution {} (some "g") 0 "a" ["g"]).2.2 "g" (by decide) rfl⟩⟩

/-- C5: processing an arrow function (at any nesting depth, every visit of
an arrow node is such a processing) leaves the scope list at its previous
length: the handler's splice undoes its pushes. -/
theorem c5_scope_restored (cfg : Enables) (g : Option String) (f : Nat)
    (ps : List Node) (body : Node) (async : Bool) (s : List String) (r : Node)
    (ch : Bool) (s' : List String)
    (h : walk cfg g f (.ArrowFunctionExpression ps body async) s = .ok (r, ch, s')) :
    s'.length = s.length := by
  rw [walk_scope cfg g f _ s r ch s' h]

/-- Witness for C5: a nested arrow function `x => y => x` over scope
`["p"]`. -/
theorem c5_scope_restored_witness : (["p"] : List String).length = (["p"] : List String).length :=
  c5_scope_restored {} none 5 [.Identifier "x"]
    (.ArrowFunctionExpression [.Identifier "y"] (.Identifier "x") false) false
    ["p"]
    (.ArrowFunctionExpression [.Identifier "x"]
      (.ArrowFunctionExpression [.Identifier "y"] (.Identifier "x") false) false)
    false ["p"] rfl

/-- C7: the policy hook rejects a unary or binary operator node, with the
error naming the operator, exactly when the operator is `delete` with the
mutation switch off, or one of `typeof`, `in`, `instanceof` with the
inspection switch off; it admits the node in every other configuration. -/
theorem c7_operator_policy (cfg : Enables) (op : String) (a l r : Node) :
    (enter cfg (.UnaryExpression op a)
        = .error (.syntaxError ("operator " ++ op ++ " is disabled"))
      ↔ ((op = "delete" ∧ cfg.enableUpdate = false)
         ∨ ((op = "typeof" ∨ op = "in" ∨ op = "instanceof") ∧ cfg.enableInspect = false)))
    ∧ (enter cfg (.UnaryExpression op a) = .ok ()
      ↔ ¬((op = "delete" ∧ cfg.enableUpdate = false)
         ∨ ((op = "typeof" ∨ op = "in" ∨ op = "instanceof") ∧ cfg.enableInspect = false)))
    ∧ (enter cfg (.BinaryExpression op l r)
        = .error (.syntaxError ("operator " ++ op ++ " is disabled"))
      ↔ ((op = "delete" ∧ cfg.enableUpdate = false)
         ∨ ((op = "typeof" ∨ op = "in" ∨ op = "instanceof") ∧ cfg.enableInspect = false)))
    ∧ (enter cfg (.BinaryExpression op l r) = .ok ()
      ↔ ¬((op = "delete" ∧ cfg.enableUpdate = false)
         ∨ ((op = "typeof" ∨ op = "in" ∨ op = "instanceof") ∧ cfg.enableInspect = false))) := by
  have hb : ∀ (b : Bool) (msg : String),
      (test b msg = .error (.syntaxError msg) ↔ b = false)
      ∧ (test b msg = .ok () ↔ b = true) := by
    intro b msg
    cases b <;> simp [test]
  have hbt : ∀ b : Bool, b = true ↔ ¬(b = false) := by
    intro b
    cases b <;> simp
  refine ⟨?_, ?_, ?_, ?_⟩
  · exact (hb _ _).1.trans (unaryCond_iff cfg op)
  · exact (hb _ _).2.trans ((hbt _).trans (not_congr (unaryCond_iff cfg op)))
  · exact (hb _ _).1.trans (unaryCond_iff cfg op)
  · exact (hb _ _).2.trans ((hbt _).trans (not_congr (unaryCond_iff cfg op)))


/-- C6: the binding scanner appends to the scope exactly the names the
pattern binds, in left-to-right, outer-to-inner order (the appended suffix
is the spec-side bound-name list); on the scenario pattern it appends
exactly `a`, `c`, `b` — the set `{a, b, c}` — and any other pattern kind is
an immediate pattern error. -/
theorem c6_binding_scan :
    (∀ (f : Nat) (p : Node) (s : List String),
      extractDeclaration f p s = (specBoundNames f p).map (fun ns => s ++ ns))
    ∧ specBoundNames 10 c6pattern = .ok ["a", "c", "b"]
    ∧ (∀ x : String, x ∈ ["a", "c", "b"] ↔ x ∈ ["a", "b", "c"])
    ∧ extractDeclaration 10 c6pattern ["p"] = .ok ["p", "a", "c", "b"]
    ∧ extractDeclaration 1 .ThisExpression ["p"]
        = .error (.plainError "unknown Pattern syntax")
    ∧ extractDeclaration 2 (.ObjectPattern [.SpreadElement (.Identifier "x")]) []
        = .error (.syntaxError "unknown ObjectPattern syntax") := by
  refine ⟨extractDeclaration_eq, rfl, ?_, rfl, rfl, rfl⟩
  intro x
  simp only [List.mem_cons, List.not_mem_nil, or_false]
  tauto

/-- C8: a subtree containing no free identifier reference (in the walker's
sense) that is processed successfully comes back as the very same tree with
the change flag `false` — the model of reference-identical reuse: fresh
nodes appear only where a rewrite fired below. -/
theorem c8_structural_reuse (cfg : Enables) (g : Option String) (f : Nat) (n : Node)
    (s : List String) (r : Node) (ch : Bool) (s' : List String)
    (hnf : noFree f n s = true) (h : walk cfg g f n s = .ok (r, ch, s')) :
    r = n ∧ ch = false :=
  walk_noFree_id cfg g f n s r ch s' hnf h

/-- Witness for C8: `a + b` under scope `["a", "b"]` is returned unchanged. -/
theorem c8_structural_reuse_witness :
    noFree 3 (.BinaryExpression "+" (.Identifier "a") (.Identifier "b")) ["a", "b"] = true
    ∧ ((.BinaryExpression "+" (.Identifier "a") (.Identifier "b") : Node)
        = .BinaryExpression "+" (.Identifier "a") (.Identifier "b") ∧ false = false) :=
  ⟨rfl, c8_structural_reuse {} none 3
    (.BinaryExpression "+" (.Identifier "a") (.Identifier "b")) ["a", "b"]
    (.BinaryExpression "+" (.Identifier "a") (.Identifier "b")) false ["a", "b"]
    rfl rfl⟩


/-- C9 counterexample: with global binding `this` and the default switches
(`this` disabled), transforming `a` succeeds and yields `this.a`, but
re-running transform on that output with the same arguments fails — the
synthesized this-reference is rejected by the policy hook on the second
pass. -/
theorem c9_counterexample :
    transform (.Identifier "a") [] (some "this") {} = .ok thisRewritten
    ∧ transform thisRewritten [] (some "this") {}
      = .error (.syntaxError "expression ThisExpression is disabled") := ⟨rfl, rfl⟩

/-- C9 amended: if `transform` succeeds yielding `T`, then — provided the
global binding is not the self-reference sentinel `this` while the `this`
switch is off — running `transform` again on `T` with the same parameter
list, global binding and configuration succeeds and yields `T` itself. -/
theorem c9_amended_idempotent (ast : Node) (params : List String) (g : Option String)
    (cfg : Enables) (T : Node)
    (h : transform ast params g cfg = .ok T)
    (hthis : g = some "this" → cfg.enableThis = true) :
    transform T params g cfg = .ok T := by
  unfold transform at h ⊢
  split at h
  · exact Except.noConfusion h
  · rename_i u1 hcp
    split at h
    · exact Except.noConfusion h
    · rename_i u2 hcg
      split at h
      · exact Except.noConfusion h
      · rename_i r ch2 s2 hwalk
        simp only [Except.ok.injEq] at h
        subst h
        have hGok : GlobalOk g cfg params := by
          cases g with
          | none => trivial
          | some gl =>
            simp only [GlobalOk]
            by_cases hgl : gl = "this"
            · rw [if_pos hgl]
              exact hthis (by rw [hgl])
            · rw [if_neg hgl]
              simp only [checkGlobal] at hcg
              split at hcg
              · exact Except.noConfusion hcg
              · rename_i hcond
                by_contra hnm
                apply hcond
                simp [bne_iff_ne, hgl, hnm]
        have hfix := walk_fix cfg g (nodeSize ast + 1) ast params r ch2 s2 hGok hwalk
          (nodeSize r + 1) (by omega)
        cases u1
        cases u2
        simp only [hcp, hcg, hfix]

/-- Witness for C9: re-running on the certified output `g.a` reproduces it. -/
theorem c9_amended_idempotent_witness :
    transform (.MemberExpression (.Identifier "g") (.Identifier "a") false false)
      ["g"] (some "g") {}
      = .ok (.MemberExpression (.Identifier "g") (.Identifier "a") false false) :=
  c9_amended_idempotent (.Identifier "a") ["g"] (some "g") {}
    (.MemberExpression (.Identifier "g") (.Identifier "a") false false) rfl
    (fun hx => absurd (Option.some.inj hx) (by decide))
